import Mathlib

/-!
Snippetbox: the three HTTP handlers and their router.

A shallow embedding of `main.go`.  The handlers `home`, `showSnippet` and
`createSnippet` are functions from a response writer and a request to the response
writer after the call.  The pieces of the Go standard library that the handlers
call (`http.Error`, `http.NotFound`, `ResponseWriter.Write`, `Header.Set`,
`url.Values.Get`, `strconv.Atoi`, `fmt.Fprintf` with the verb d, `http.ServeMux`)
are embedded next to them, following the library's own code path by path.  The mux
is embedded in both of its implementations, the one of Go 1.21 and the routing tree
of Go 1.22, since the repository does not say which one the server is built with.

Go strings are sequences of bytes; here they are Lean strings, one character per
byte for ASCII text.  A character outside ASCII is neither a sign nor a digit, as is
each of the bytes that encode it, so the integer parser rejects both alike.
-/

namespace Snippetbox

/-! ## Response headers and the response writer -/

/-- The header map `http.Header`: keys with their lists of values.  Every key the
program uses (`Allow`, `Content-Type`, ...) is already in canonical MIME form, so
canonicalisation of keys is the identity on them and is left out. -/
structure Header where
  entries : List (String × List String)
deriving DecidableEq, Repr

/-- Go: `Header.Get`, the first value stored under the key, the empty string when there is none. -/
def Header.Get (h : Header) (key : String) : String :=
  match h.entries.lookup key with
  | some (v :: _) => v
  | _ => ""

/-- Go: `Header.Del`, removes the key. -/
def Header.Del (h : Header) (key : String) : Header :=
  ⟨h.entries.filter (fun kv => kv.1 != key)⟩

/-- Go: `Header.Set`, replaces whatever is stored under the key by the single value. -/
def Header.Set (h : Header) (key value : String) : Header :=
  ⟨(key, [value]) :: (h.Del key).entries⟩

/-- The state of an `http.ResponseWriter` as a handler sees it and as the client
receives it: the live header map `w.Header()`, whether the status line has gone out,
the status code and the header map that went out with it, and the body written so far. -/
structure ResponseWriter where
  header : Header
  wroteHeader : Bool
  status : Nat
  sentHeader : Header
  body : String
deriving DecidableEq, Repr

/-- A response writer at the start of a request: nothing set, nothing sent. -/
def ResponseWriter.fresh : ResponseWriter :=
  { header := ⟨[]⟩, wroteHeader := false, status := 0, sentHeader := ⟨[]⟩, body := "" }

/-- Go: `w.Header().Set(key, value)`; acts on the live map only, so it reaches the
client only when it happens before the status line is written. -/
def ResponseWriter.SetHeader (w : ResponseWriter) (key value : String) : ResponseWriter :=
  { w with header := w.header.Set key value }

/-- Go: `w.Header().Del(key)`. -/
def ResponseWriter.DelHeader (w : ResponseWriter) (key : String) : ResponseWriter :=
  { w with header := w.header.Del key }

/-- Go: `w.WriteHeader(code)`; the first call fixes the status code and the headers
sent, a later call changes nothing. -/
def ResponseWriter.WriteHeader (w : ResponseWriter) (code : Nat) : ResponseWriter :=
  if w.wroteHeader then w
  else { w with wroteHeader := true, status := code, sentHeader := w.header }

/-- Go: `w.Write(b)`; sends `200 OK` first when no status line has been written yet,
then appends to the body. -/
def ResponseWriter.Write (w : ResponseWriter) (b : String) : ResponseWriter :=
  let w1 := if w.wroteHeader then w else w.WriteHeader 200
  { w1 with body := w1.body ++ b }

/-! ## Requests -/

/-- The fields of `url.URL` the program and its router read: the decoded path, the
encoded path as the client wrote it when that is not the default encoding of the
decoded path (empty otherwise), and the query string. -/
structure URL where
  Path : String
  RawPath : String
  RawQuery : String
deriving DecidableEq, Repr

/-- The fields of `http.Request` the program and its router read. -/
structure Request where
  Method : String
  RequestURI : String
  ProtoMajor : Nat
  ProtoMinor : Nat
  URL : URL
deriving DecidableEq, Repr

/-- Go: `r.ProtoAtLeast(major, minor)`. -/
def Request.ProtoAtLeast (r : Request) (major minor : Nat) : Bool :=
  decide (r.ProtoMajor > major) || (decide (r.ProtoMajor = major) && decide (r.ProtoMinor ≥ minor))

/-- An HTTP/1.1 request whose target is written without percent-escapes in the path,
as the server hands it to the router. -/
def Request.new (method path rawQuery : String) : Request :=
  { Method := method
    RequestURI := if rawQuery = "" then path else path ++ "?" ++ rawQuery
    ProtoMajor := 1
    ProtoMinor := 1
    URL := { Path := path, RawPath := "", RawQuery := rawQuery } }

/-- An HTTP/1.1 request whose target is written `rawPath` and decodes to `path`. -/
def Request.escaped (method path rawPath rawQuery : String) : Request :=
  { Method := method
    RequestURI := if rawQuery = "" then rawPath else rawPath ++ "?" ++ rawQuery
    ProtoMajor := 1
    ProtoMinor := 1
    URL := { Path := path, RawPath := rawPath, RawQuery := rawQuery } }

/-! ## `http.Error` and `http.NotFound` -/

/-- Go: `http.StatusNotFound`. -/
def StatusNotFound : Nat := 404

/-- Go: `http.Error(w, error, code)`: drops `Content-Length`, sets the plain-text
content type and `nosniff`, writes the status line, then prints the message with
`fmt.Fprintln`, that is followed by a line feed. -/
def Error (w : ResponseWriter) (error : String) (code : Nat) : ResponseWriter :=
  let w1 := w.DelHeader "Content-Length"
  let w2 := w1.SetHeader "Content-Type" "text/plain; charset=utf-8"
  let w3 := w2.SetHeader "X-Content-Type-Options" "nosniff"
  let w4 := w3.WriteHeader code
  w4.Write (error ++ "\n")

/-- Go: `http.NotFound(w, r)`, which is `Error(w, "404 page not found", StatusNotFound)`. -/
def NotFound (w : ResponseWriter) (_r : Request) : ResponseWriter :=
  Error w "404 page not found" StatusNotFound

/-- The body `http.NotFound` writes: the standard not-found body. -/
def notFoundBody : String := "404 page not found\n"

/-! ## The handlers `home` and `createSnippet` -/

/-- Go: `home` (main.go, lines 12-23). -/
def home (w : ResponseWriter) (r : Request) : ResponseWriter :=
  if r.URL.Path ≠ "/" then
    NotFound w r
  else
    w.Write "Hello from Snippetbox"

/-- Go: `createSnippet` (main.go, lines 43-83). -/
def createSnippet (w : ResponseWriter) (r : Request) : ResponseWriter :=
  if r.Method ≠ "POST" then
    let w1 := w.SetHeader "Allow" "POST"
    Error w1 "Method Not Allowed" 405
  else
    w.Write "Create a new snippet..."

/-! ## `strconv.Atoi` -/

/-- The width of the Go types `int` and `uint` on the platform the server is built for. -/
inductive WordSize where
  | w32
  | w64
deriving DecidableEq, Repr

/-- Go: `strconv.IntSize`, the size in bits of an `int`. -/
def intSize : WordSize → Nat
  | .w32 => 32
  | .w64 => 64

/-- The two errors of `strconv`: `ErrSyntax` and `ErrRange`. -/
inductive NumError where
  | ErrSyntax
  | ErrRange
deriving DecidableEq, Repr

/-- Conversion to a signed integer type of the given width, with wrap-around. -/
def wrapInt (bits : Nat) (z : Int) : Int :=
  (z + 2 ^ (bits - 1)) % 2 ^ bits - 2 ^ (bits - 1)

/-- Go: `lower(c)` of `strconv`, the byte with bit `0x20` set. -/
def lower (c : Char) : Nat := c.toNat ||| 0x20

/-- The digit value `ParseUint` gives a byte: `c - 48` for a decimal digit,
`lower(c) - 97 + 10` for a letter, none for any other byte. -/
def digitOf (c : Char) : Option Nat :=
  if 48 ≤ c.toNat ∧ c.toNat ≤ 57 then some (c.toNat - 48)
  else if 97 ≤ lower c ∧ lower c ≤ 122 then some (lower c - 97 + 10)
  else none

/-- The loop of `strconv.ParseUint` at base 10 (an underscore is accepted at base 0
only): `n` is the `uint64` accumulated so far; the result is the value returned and
the error, if any. -/
def parseUintLoop (maxVal cutoff : Nat) : List Char → Nat → Nat × Option NumError
  | [], n => (n, none)
  | c :: cs, n =>
    match digitOf c with
    | none => (0, some .ErrSyntax)
    | some d =>
      if d ≥ 10 then (0, some .ErrSyntax)
      else if n ≥ cutoff then (maxVal, some .ErrRange)
      else
        let n10 := (n * 10) % 2 ^ 64
        let n1 := (n10 + d) % 2 ^ 64
        if n1 < n10 ∨ n1 > maxVal then (maxVal, some .ErrRange)
        else parseUintLoop maxVal cutoff cs n1

/-- Go: `strconv.ParseUint(s, 10, 0)` on the characters of `s`: bit size 0 stands for
`IntSize`, `cutoff` is `maxUint64/10 + 1` and `maxVal` is `1<<bitSize - 1` in `uint64`. -/
def ParseUint (ws : WordSize) (s : List Char) : Nat × Option NumError :=
  if s = [] then (0, some .ErrSyntax)
  else
    let bitSize := intSize ws
    let cutoff := (2 ^ 64 - 1) / 10 + 1
    let maxVal := (2 ^ bitSize % 2 ^ 64 + 2 ^ 64 - 1) % 2 ^ 64
    parseUintLoop maxVal cutoff s 0

/-- Go: `strconv.ParseInt(s, 10, 0)` on the characters of `s`: the sign is taken off,
`ParseUint` reads the rest, a syntax error is passed on, and the unsigned value `un`
is checked against `cutoff = 1 << (bitSize-1)` before it is converted to `int64`. -/
def ParseInt (ws : WordSize) (s : List Char) : Int × Option NumError :=
  match s with
  | [] => (0, some .ErrSyntax)
  | c :: rest =>
    let neg := decide (c ≠ '+') && decide (c = '-')
    let s1 := if c = '+' then rest else if c = '-' then rest else c :: rest
    let r := ParseUint ws s1
    if r.2 = some .ErrSyntax then (0, r.2)
    else
      let un := r.1
      let bitSize := intSize ws
      let cutoff := 2 ^ (bitSize - 1) % 2 ^ 64
      if !neg ∧ un ≥ cutoff then (wrapInt 64 ((cutoff + 2 ^ 64 - 1) % 2 ^ 64 : Nat), some .ErrRange)
      else if neg ∧ un > cutoff then (wrapInt 64 (-wrapInt 64 (cutoff : Nat)), some .ErrRange)
      else
        let n := wrapInt 64 (un : Nat)
        (if neg then wrapInt 64 (-n) else n, none)

/-- The loop of the fast path of `strconv.Atoi`: none when a byte is not a decimal
digit, else the `int` accumulated. -/
def atoiFastLoop (bits : Nat) : List Char → Int → Option Int
  | [], n => some n
  | c :: cs, n =>
    if c.toNat < 48 ∨ c.toNat - 48 > 9 then none
    else atoiFastLoop bits cs (wrapInt bits (n * 10 + ((c.toNat - 48 : Nat) : Int)))

/-- Go: `strconv.Atoi(s)`: the `int` returned and the error, if any.  A string short
enough to fit an `int` whatever its digits goes through the fast path, every other
string through `ParseInt(s, 10, 0)`; `sLen` is the length of `s` in bytes. -/
def Atoi (ws : WordSize) (s : String) : Int × Option NumError :=
  let sLen := s.utf8ByteSize
  if (intSize ws = 32 ∧ (0 < sLen ∧ sLen < 10)) ∨ (intSize ws = 64 ∧ (0 < sLen ∧ sLen < 19)) then
    match s.data with
    | [] => (0, some .ErrSyntax)
    | c :: rest =>
      let signed := decide (c = '-') || decide (c = '+')
      if signed ∧ rest.length < 1 then (0, some .ErrSyntax)
      else
        match atoiFastLoop (intSize ws) (if signed then rest else c :: rest) 0 with
        | none => (0, some .ErrSyntax)
        | some n => (if c = '-' then wrapInt (intSize ws) (-n) else n, none)
  else
    let r := ParseInt ws s.data
    (wrapInt (intSize ws) r.1, r.2)

/-- Go: the verb d of `fmt` on an `int`: the decimal digits, after a minus sign
for a negative number. -/
def fmtInt (i : Int) : String :=
  if i < 0 then "-" ++ Nat.repr i.natAbs else Nat.repr i.natAbs

/-! ## The query string: `url.ParseQuery` and `url.Values` -/

/-- Go: `url.Values`, the parsed query: keys with their values in order of appearance. -/
structure Values where
  entries : List (String × List String)
deriving DecidableEq, Repr

/-- Go: `Values.Get`, the first value of the key, the empty string when the key is absent. -/
def Values.Get (v : Values) (key : String) : String :=
  match v.entries.lookup key with
  | some (x :: _) => x
  | _ => ""

/-- Go: `v.Has(key)`, whether the key is present. -/
def Values.Has (v : Values) (key : String) : Bool :=
  (v.entries.lookup key).isSome

/-- Go: `m[key] = append(m[key], value)`. -/
def Values.Append (v : Values) (key value : String) : Values :=
  if v.Has key then
    ⟨v.entries.map (fun kv => if kv.1 = key then (kv.1, kv.2 ++ [value]) else kv)⟩
  else
    ⟨v.entries ++ [(key, [value])]⟩

/-- Go: `strings.Cut(s, sep)` for a separator of one byte: the text before the first
separator and the text after it; all of `s` and nothing when there is none. -/
def cut (sep : Char) : List Char → List Char × List Char
  | [] => ([], [])
  | c :: cs => if c = sep then ([], cs) else ((cut sep cs).1.cons c, (cut sep cs).2)

/-- The pieces that the loop of `url.parseQuery` takes off the query one after the
other with `strings.Cut(query, "&")`, until the query is empty. -/
def ampPieces : List Char → List Char → List (List Char)
  | [], cur => if cur = [] then [] else [cur.reverse]
  | c :: cs, cur => if c = '&' then cur.reverse :: ampPieces cs [] else ampPieces cs (c :: cur)

/-- Go: `ishex(c)` of `net/url`. -/
def ishex (c : Char) : Bool :=
  (decide (48 ≤ c.toNat) && decide (c.toNat ≤ 57)) ||
  (decide (97 ≤ c.toNat) && decide (c.toNat ≤ 102)) ||
  (decide (65 ≤ c.toNat) && decide (c.toNat ≤ 70))

/-- Go: `unhex(c)` of `net/url`. -/
def unhex (c : Char) : Nat :=
  if 48 ≤ c.toNat ∧ c.toNat ≤ 57 then c.toNat - 48
  else if 97 ≤ c.toNat ∧ c.toNat ≤ 102 then c.toNat - 97 + 10
  else if 65 ≤ c.toNat ∧ c.toNat ≤ 70 then c.toNat - 65 + 10
  else 0

/-- Go: `url.QueryUnescape(s)`: a percent sign with two hex digits becomes the byte they
name, a plus sign becomes a space; none when a percent sign lacks its two hex digits. -/
def QueryUnescape : List Char → Option (List Char)
  | [] => some []
  | c :: cs =>
    if c = '%' then
      match cs with
      | a :: b :: rest =>
        if ishex a && ishex b then
          (QueryUnescape rest).map (fun t => Char.ofNat (unhex a * 16 + unhex b) :: t)
        else none
      | _ => none
    else if c = '+' then (QueryUnescape cs).map (fun t => ' ' :: t)
    else (QueryUnescape cs).map (fun t => c :: t)

/-- The body of the loop of `url.parseQuery` for one piece: a piece with a semicolon,
an empty piece and a piece that does not unescape are skipped. -/
def parseQueryPiece (m : Values) (piece : List Char) : Values :=
  if ';' ∈ piece then m
  else if piece = [] then m
  else
    match QueryUnescape (cut '=' piece).1, QueryUnescape (cut '=' piece).2 with
    | some key, some value => m.Append (String.mk key) (String.mk value)
    | _, _ => m

/-- Go: `url.ParseQuery(query)`, the values only: `URL.Query` drops the error.  The
statements about `showSnippet` below are made on the value `Get` returns for the id,
however the query string spells it. -/
def ParseQuery (query : String) : Values :=
  (ampPieces query.data []).foldl parseQueryPiece ⟨[]⟩

/-- Go: `u.Query()`. -/
def URL.Query (u : URL) : Values := ParseQuery u.RawQuery

/-! ## The handler `showSnippet` -/

/-- The text `fmt.Fprintf(w, "Display a specific snippet with ID %d...", id)` writes. -/
def snippetBody (id : Int) : String :=
  "Display a specific snippet with ID " ++ fmtInt id ++ "..."

/-- Go: `showSnippet` (main.go, lines 26-40). -/
def showSnippet (ws : WordSize) (w : ResponseWriter) (r : Request) : ResponseWriter :=
  let res := Atoi ws (r.URL.Query.Get "id")
  let id := res.1
  let err := res.2
  if err ≠ none ∨ id < 1 then
    NotFound w r
  else
    w.Write (snippetBody id)

/-! ## The escaped path: `URL.EscapedPath` -/

/-- Go: `shouldEscape(c, encodePath)` of `net/url`: letters, digits and the marks
`-_.~` stay, of the reserved characters only the question mark is escaped in a
path, every other byte is escaped. -/
def shouldEscapePath (c : Char) : Bool :=
  if (97 ≤ c.toNat ∧ c.toNat ≤ 122) ∨ (65 ≤ c.toNat ∧ c.toNat ≤ 90) ∨
      (48 ≤ c.toNat ∧ c.toNat ≤ 57) then false
  else if c ∈ ['-', '_', '.', '~'] then false
  else if c ∈ ['$', '&', '+', ',', '/', ':', ';', '=', '?', '@'] then decide (c = '?')
  else true

/-- The bytes of a character in UTF-8, which is how a Go string holds it. -/
def utf8Bytes (c : Char) : List Nat :=
  if c.toNat ≤ 0x7f then [c.toNat]
  else if c.toNat ≤ 0x7ff then [0xc0 + c.toNat / 64, 0x80 + c.toNat % 64]
  else if c.toNat ≤ 0xffff then
    [0xe0 + c.toNat / 4096, 0x80 + c.toNat / 64 % 64, 0x80 + c.toNat % 64]
  else
    [0xf0 + c.toNat / 262144, 0x80 + c.toNat / 4096 % 64, 0x80 + c.toNat / 64 % 64,
      0x80 + c.toNat % 64]

/-- Go: `upperhex[n]`. -/
def upperhex (n : Nat) : Char := "0123456789ABCDEF".data.getD n '0'

/-- Go: `escape(s, encodePath)`: a byte that must be escaped becomes a percent sign
and its two upper-case hex digits. -/
def escapePath (s : List Char) : List Char :=
  s.flatMap (fun c =>
    if shouldEscapePath c then
      (utf8Bytes c).flatMap (fun b => ['%', upperhex (b / 16), upperhex (b % 16)])
    else [c])

/-- Go: `unescape(s, mode)` for the path modes (`PathUnescape`): a percent sign with
two hex digits becomes the byte they name; none when a percent sign lacks them. -/
def unescapePath : List Char → Option (List Char)
  | [] => some []
  | c :: cs =>
    if c = '%' then
      match cs with
      | a :: b :: rest =>
        if ishex a && ishex b then
          (unescapePath rest).map (fun t => Char.ofNat (unhex a * 16 + unhex b) :: t)
        else none
      | _ => none
    else (unescapePath cs).map (fun t => c :: t)

/-- Go: `validEncoded(s, encodePath)`: every byte is a sub-delimiter, a colon, an at
sign, a bracket, a percent sign, or a byte that a path does not escape. -/
def validEncodedPath (s : List Char) : Bool :=
  s.all (fun c =>
    decide (c ∈ ['!', '$', '&', Char.ofNat 39, '(', ')', '*', '+', ',', ';', '=', ':', '@']) ||
    decide (c ∈ ['[', ']']) || decide (c = '%') || !shouldEscapePath c)

/-- Go: `u.EscapedPath()`: `RawPath` when it is a valid encoding of `Path`, else the
default encoding of `Path`. -/
def URL.EscapedPath (u : URL) : String :=
  if u.RawPath ≠ "" ∧ validEncodedPath u.RawPath.data = true ∧
      unescapePath u.RawPath.data = some u.Path.data then u.RawPath
  else if u.Path = "*" then "*"
  else String.mk (escapePath u.Path.data)

/-- Go: `pathUnescape(path)` of `net/http`: the decoded text, the text itself when it
does not decode. -/
def pathUnescape (path : List Char) : List Char :=
  match unescapePath path with
  | some u => u
  | none => path

/-! ## The router: `http.ServeMux` and `main` -/

/-- The handlers the router can hand a request to: the three functions that `main`
registers, the redirect handler and the not-found handler of `net/http`. -/
inductive Handler where
  | home
  | showSnippet
  | createSnippet
  | RedirectHandler (target : URL) (code : Nat)
  | NotFoundHandler
deriving DecidableEq, Repr

/-- Go: `http.ServeMux`: the registered patterns with their handlers, in the order of
registration.  `net/http` holds two implementations of the mux and picks one at start
from the setting `httpmuxgo121` (the flag `use121`): the one of Go 1.21 and before,
with its map `m` and its slice `es`, and the routing tree of Go 1.22 and after.  Both
are computed here from the registrations. -/
structure ServeMux where
  m : List (String × Handler)
deriving DecidableEq, Repr

/-- Go: `http.NewServeMux()`. -/
def NewServeMux : ServeMux := ⟨[]⟩

/-- Go: `mux.HandleFunc(pattern, handler)` for a pattern that is new and not empty. -/
def ServeMux.HandleFunc (mux : ServeMux) (pattern : String) (h : Handler) : ServeMux :=
  ⟨mux.m ++ [(pattern, h)]⟩

/-- Go: `appendSorted`, keeps the slice `es` ordered from the longest pattern to the shortest. -/
def appendSorted (e : String × Handler) : List (String × Handler) → List (String × Handler)
  | [] => [e]
  | x :: xs => if x.1.length < e.1.length then e :: x :: xs else x :: appendSorted e xs

/-- The slice `es` of the mux: the patterns ending in a slash, longest first. -/
def ServeMux.es (mux : ServeMux) : List (String × Handler) :=
  mux.m.foldl (fun es e => if e.1.data.getLast? = some '/' then appendSorted e es else es) []

/-- Go: `mux.mux121.match(path)`: an exact match first, then the longest pattern ending in a
slash that starts the path. -/
def ServeMux.match (mux : ServeMux) (path : String) : Option (Handler × String) :=
  match mux.m.lookup path with
  | some h => some (h, path)
  | none =>
    match mux.es.find? (fun e => e.1.data.isPrefixOf path.data) with
    | some e => some (e.2, e.1)
    | none => none

/-- Go: `mux.mux121.handler(host, path)`.  No registered pattern names a host, so the lookup
of host-specific patterns is skipped, as it is in Go when `mux.hosts` is false. -/
def ServeMux.handler (mux : ServeMux) (path : String) : Handler × String :=
  match mux.match path with
  | some r => r
  | none => (.NotFoundHandler, "")

/-- The elements of a path between its slashes. -/
def pathElements : List Char → List Char → List (List Char)
  | [], cur => [cur.reverse]
  | c :: cs, cur => if c = '/' then cur.reverse :: pathElements cs [] else pathElements cs (c :: cur)

/-- The elements `path.Clean` keeps of a rooted path: an empty element and a dot are
dropped, two dots drop the element before them (and nothing at the root). -/
def cleanElements : List (List Char) → List (List Char) → List (List Char)
  | [], kept => kept.reverse
  | e :: es, kept =>
    if e = [] ∨ e = ['.'] then cleanElements es kept
    else if e = ['.', '.'] then cleanElements es kept.tail
    else cleanElements es (e :: kept)

/-- Go: `path.Clean(p)` for a rooted path, `p` being given without its leading slash. -/
def pathClean (afterSlash : List Char) : List Char :=
  '/' :: List.intercalate ['/'] (cleanElements (pathElements afterSlash []) [])

/-- Go: `cleanPath(p)` of `net/http`: the canonical path, with the trailing slash kept. -/
def cleanPath (p : String) : String :=
  match p.data with
  | [] => "/"
  | c :: cs =>
    let p1 := if c ≠ '/' then '/' :: c :: cs else c :: cs
    let np := pathClean p1.tail
    if p1.getLast? = some '/' ∧ np ≠ ['/'] then
      if p1.length = np.length + 1 ∧ np.isPrefixOf p1 then String.mk p1
      else String.mk (np ++ ['/'])
    else String.mk np

/-- Go: `mux.mux121.shouldRedirectRLocked(host, path)`: the path is not registered and the
path followed by a slash is.  The lookups of `host + path` find nothing more, for no
pattern names a host. -/
def ServeMux.shouldRedirect (mux : ServeMux) (path : String) : Bool :=
  if (mux.m.lookup path).isSome then false
  else if path.length = 0 then false
  else if (mux.m.lookup (path ++ "/")).isSome then decide (path.data.getLast? ≠ some '/')
  else false

/-- Go: `http.StatusMovedPermanently`. -/
def StatusMovedPermanently : Nat := 301

/-- Go: `http.StatusTemporaryRedirect`. -/
def StatusTemporaryRedirect : Nat := 307

/-- Go: `mux.mux121.findHandler(r)`, the mux of Go 1.21: the handler for the request
and the pattern it matched.  It reads the decoded path `r.URL.Path`. -/
def ServeMux.findHandler121 (mux : ServeMux) (r : Request) : Handler × String :=
  if r.Method = "CONNECT" then
    if mux.shouldRedirect r.URL.Path then
      (.RedirectHandler ⟨r.URL.Path ++ "/", "", r.URL.RawQuery⟩ StatusMovedPermanently,
        r.URL.Path ++ "/")
    else mux.handler r.URL.Path
  else
    let path := cleanPath r.URL.Path
    if mux.shouldRedirect path then
      (.RedirectHandler ⟨path ++ "/", "", r.URL.RawQuery⟩ StatusMovedPermanently, path ++ "/")
    else if path ≠ r.URL.Path then
      (.RedirectHandler ⟨path, "", r.URL.RawQuery⟩ StatusMovedPermanently, (mux.handler path).2)
    else mux.handler r.URL.Path

/-- Go: `segment` of a parsed pattern: a literal `s`, or a wildcard; the slash at the
end of a pattern is a nameless wildcard for the rest of the path (`multi`). -/
structure segment where
  s : String
  wild : Bool
  multi : Bool
deriving DecidableEq, Repr

/-- Go: `pattern`: the text registered and its segments.  The patterns of this program
name no method and no host. -/
structure pattern where
  str : String
  segments : List segment
deriving DecidableEq, Repr

/-- The loop of `parsePattern` over the path of a pattern, from after a slash: each
piece up to the next slash is a literal segment, decoded; nothing after the last slash
is the wildcard for the rest. -/
def parseSegments : List Char → List Char → List segment
  | [], cur => [⟨String.mk (pathUnescape cur.reverse), false, false⟩]
  | c :: cs, cur =>
    if c = '/' then
      ⟨String.mk (pathUnescape cur.reverse), false, false⟩ ::
        (if cs = [] then [⟨"", true, true⟩] else parseSegments cs [])
    else parseSegments cs (c :: cur)

/-- Go: `parsePattern(s)` for a pattern that is a plain path: no method, no host, no
wildcard in braces, which is what `main` registers. -/
def parsePattern (s : String) : pattern :=
  match s.data with
  | [] => ⟨s, []⟩
  | _ :: cs => ⟨s, if cs = [] then [⟨"", true, true⟩] else parseSegments cs []⟩

/-- The patterns of the mux, parsed, with their handlers. -/
def ServeMux.patterns (mux : ServeMux) : List (pattern × Handler) :=
  mux.m.map (fun e => (parsePattern e.1, e.2))

/-- Go: `firstSegment` applied until the path is used up, from after the first byte:
the decoded pieces between the slashes, and a slash that ends the path as a piece of
its own. -/
def segmentsFrom : List Char → List Char → List String
  | [], cur => [String.mk (pathUnescape cur.reverse)]
  | c :: cs, cur =>
    if c = '/' then
      String.mk (pathUnescape cur.reverse) :: (if cs = [] then ["/"] else segmentsFrom cs [])
    else segmentsFrom cs (c :: cur)

/-- The segments `matchPath` takes off a path with `firstSegment`, one call after the
other: none for the empty path, the slash for the path that is a slash. -/
def pathSegments (path : String) : List String :=
  match path.data with
  | [] => []
  | c :: cs => if c = '/' ∧ cs = [] then ["/"] else segmentsFrom cs []

/-- Go: `n.matchPath(path, nil)` on the routing tree.  The node reached by a run of
literal segments stands for the patterns that begin with this run; `below` holds what
is left of their segments.  With the path used up the node matches when a pattern ends
at it; else the child for the next segment is tried first, then the wildcard for the
rest of the path.  No pattern of this program has a wildcard for a single segment. -/
def matchPath (below : List (List segment × pattern × Handler)) :
    List String → Option (pattern × Handler)
  | [] => (below.find? (fun e => e.1.isEmpty)).map (fun e => e.2)
  | seg :: rest =>
    match matchPath (below.filterMap (fun e =>
        match e.1 with
        | sg :: tl => if !sg.wild && sg.s == seg then some (tl, e.2) else none
        | [] => none)) rest with
    | some r => some r
    | none =>
      (below.find? (fun e =>
        match e.1 with
        | [sg] => sg.multi
        | _ => false)).map (fun e => e.2)

/-- Go: `mux.tree.match(host, method, path)`.  No pattern names a host or a method, so
the search is the one below the node for no host and no method. -/
def ServeMux.treeMatch (mux : ServeMux) (path : String) : Option (pattern × Handler) :=
  matchPath (mux.patterns.map (fun e => (e.1.segments, e.1, e.2))) (pathSegments path)

/-- Go: `exactMatch(n, path)`: a match is exact unless the wildcard for the rest of the
path took up something. -/
def exactMatch (n : Option (pattern × Handler)) (path : String) : Bool :=
  match n with
  | none => false
  | some (p, _) =>
    match p.segments.getLast? with
    | none => true
    | some last =>
      if !last.multi then true
      else if path.data ≠ [] ∧ path.data.getLast? ≠ some '/' then false
      else decide (p.segments.length = path.data.count '/')

/-- Go: `mux.matchOrRedirect(host, method, path, u)`: the match for the path, or, when
the match is not exact, a URL is given and the path followed by a slash matches
exactly, the URL to redirect to. -/
def ServeMux.matchOrRedirect (mux : ServeMux) (path : String) (u : Option URL) :
    Option (pattern × Handler) × Option URL :=
  match u with
  | none => (mux.treeMatch path, none)
  | some u =>
    if !exactMatch (mux.treeMatch path) path ∧ path.data.getLast? ≠ some '/' then
      if exactMatch (mux.treeMatch (path ++ "/")) (path ++ "/") then
        (none, some ⟨cleanPath u.Path ++ "/", "", u.RawQuery⟩)
      else (mux.treeMatch path, none)
    else (mux.treeMatch path, none)

/-- The end of `findHandler`: the handler of the node matched, and the not-found
handler when nothing matched (no pattern names a method, so no other method is
allowed either). -/
def handlerOf (n : Option (pattern × Handler)) : Handler × String :=
  match n with
  | none => (.NotFoundHandler, "")
  | some (p, h) => (h, p.str)

/-- Go: `mux.findHandler(r)`, the mux of Go 1.22 and after: the handler for the request
and the pattern it matched.  It reads the escaped path `r.URL.EscapedPath()`. -/
def ServeMux.findHandler (mux : ServeMux) (r : Request) : Handler × String :=
  let escapedPath := r.URL.EscapedPath
  if r.Method = "CONNECT" then
    match (mux.matchOrRedirect escapedPath (some r.URL)).2 with
    | some u => (.RedirectHandler u StatusTemporaryRedirect, u.Path)
    | none => handlerOf (mux.matchOrRedirect escapedPath none).1
  else
    let path := cleanPath escapedPath
    match (mux.matchOrRedirect path (some r.URL)).2 with
    | some u => (.RedirectHandler u StatusTemporaryRedirect, u.Path)
    | none =>
      if path ≠ escapedPath then
        (.RedirectHandler ⟨path, "", r.URL.RawQuery⟩ StatusTemporaryRedirect,
          match (mux.matchOrRedirect path (some r.URL)).1 with
          | some n => n.1.str
          | none => "")
      else handlerOf (mux.matchOrRedirect path (some r.URL)).1

/-- Go: `mux.Handler(r)`: the handler for the request and the pattern it matched, from
the implementation of the mux in use. -/
def ServeMux.Handler (use121 : Bool) (mux : ServeMux) (r : Request) : Handler × String :=
  if use121 then mux.findHandler121 r else mux.findHandler r

/-- Go: `http.Redirect(w, r, url, code)` as far as the status line goes: the target is
stored under `Location` and the status line is written.  The escaping of the target
and the short HTML body of a redirect answered to GET are left out. -/
def Redirect (w : ResponseWriter) (_r : Request) (target : URL) (code : Nat) : ResponseWriter :=
  let url := if target.RawQuery = "" then target.Path else target.Path ++ "?" ++ target.RawQuery
  (w.SetHeader "Location" url).WriteHeader code

/-- Go: `h.ServeHTTP(w, r)` for each handler the router can return. -/
def Handler.ServeHTTP (ws : WordSize) (h : Handler) (w : ResponseWriter) (r : Request) :
    ResponseWriter :=
  match h with
  | .home => Snippetbox.home w r
  | .showSnippet => Snippetbox.showSnippet ws w r
  | .createSnippet => Snippetbox.createSnippet w r
  | .RedirectHandler target code => Redirect w r target code
  | .NotFoundHandler => NotFound w r

/-- Go: `mux.ServeHTTP(w, r)`: the asterisk form of the request target is answered
with 400, every other request goes to the handler `mux.Handler` finds. -/
def ServeMux.ServeHTTP (use121 : Bool) (ws : WordSize) (mux : ServeMux)
    (w : ResponseWriter) (r : Request) : ResponseWriter :=
  if r.RequestURI = "*" then
    let w1 := if r.ProtoAtLeast 1 1 then w.SetHeader "Connection" "close" else w
    w1.WriteHeader 400
  else
    (mux.Handler use121 r).1.ServeHTTP ws w r

/-- Go: the mux `main` builds (main.go, lines 88-94). -/
def mux : ServeMux :=
  ((NewServeMux.HandleFunc "/" .home).HandleFunc "/snippet" .showSnippet).HandleFunc
    "/snippet/create" .createSnippet

/-! ## Decimal numerals -/

/-- The character is one of the ten decimal digits. -/
def isDecDigit (c : Char) : Bool := decide (48 ≤ c.toNat) && decide (c.toNat ≤ 57)

/-- The number a run of decimal digits denotes, continuing from `n`. -/
def decFold (n : Nat) (ds : List Char) : Nat :=
  ds.foldl (fun acc c => acc * 10 + (c.toNat - 48)) n

/-- The number a run of decimal digits denotes. -/
def decValue (ds : List Char) : Nat := decFold 0 ds

/-- The largest value of an `int`. -/
def maxInt (ws : WordSize) : Int := 2 ^ (intSize ws - 1) - 1

/-- The string is a decimal numeral: an optional sign, then one decimal digit or more. -/
def isDecimal (s : List Char) : Bool :=
  match s with
  | [] => false
  | c :: cs =>
    if c = '+' ∨ c = '-' then !cs.isEmpty && cs.all isDecDigit
    else (c :: cs).all isDecDigit

/-- The integer a decimal numeral denotes. -/
def decimalInt (s : List Char) : Int :=
  match s with
  | [] => 0
  | c :: cs =>
    if c = '-' then -(decValue cs : Int)
    else if c = '+' then (decValue cs : Int)
    else (decValue (c :: cs) : Int)

/-! ## The embedding on concrete inputs -/

/-- Values of `Atoi` with a 64-bit `int`: signs and leading zeros are accepted, an
underscore, a letter and the empty string are syntax errors, and the range ends at
9223372036854775807 and at -9223372036854775808. -/
theorem Atoi_values_w64 :
    Atoi .w64 "5" = (5, none) ∧ Atoi .w64 "+5" = (5, none) ∧ Atoi .w64 "005" = (5, none) ∧
    Atoi .w64 "-1" = (-1, none) ∧ Atoi .w64 "0" = (0, none) ∧
    Atoi .w64 "abc" = (0, some .ErrSyntax) ∧ Atoi .w64 "" = (0, some .ErrSyntax) ∧
    Atoi .w64 "1_0" = (0, some .ErrSyntax) ∧ Atoi .w64 "12a" = (0, some .ErrSyntax) ∧
    Atoi .w64 " 5" = (0, some .ErrSyntax) ∧ Atoi .w64 "+" = (0, some .ErrSyntax) ∧
    Atoi .w64 "9223372036854775807" = (9223372036854775807, none) ∧
    Atoi .w64 "9223372036854775808" = (9223372036854775807, some .ErrRange) ∧
    Atoi .w64 "-9223372036854775808" = (-9223372036854775808, none) ∧
    Atoi .w64 "-9223372036854775809" = (-9223372036854775808, some .ErrRange) ∧
    Atoi .w64 "99999999999999999999999" = (9223372036854775807, some .ErrRange) ∧
    Atoi .w64 "99999999999999999999999x" = (9223372036854775807, some .ErrRange) := by
  decide

/-- Values of `Atoi` with a 32-bit `int`. -/
theorem Atoi_values_w32 :
    Atoi .w32 "5" = (5, none) ∧ Atoi .w32 "" = (0, some .ErrSyntax) ∧
    Atoi .w32 "2147483647" = (2147483647, none) ∧
    Atoi .w32 "2147483648" = (2147483647, some .ErrRange) ∧
    Atoi .w32 "-2147483648" = (-2147483648, none) ∧
    Atoi .w32 "-2147483649" = (-2147483648, some .ErrRange) := by
  decide

/-- The query parser on a query with a repeated key, a plus sign, an escape, a piece
with a semicolon, an empty piece, a bad escape and a key without a value. -/
theorem Query_values :
    URL.Query ⟨"/", "", "a=1&b=x+y&a=2&c;d=1&&e=%zz&f&g=%2B5"⟩
      = ⟨[("a", ["1", "2"]), ("b", ["x y"]), ("f", [""]), ("g", ["+5"])]⟩ ∧
    (URL.Query ⟨"/snippet", "", "x=1&id=%35&id=7"⟩).Get "id" = "5" ∧
    (URL.Query ⟨"/snippet", "", ""⟩).Get "id" = "" := by
  decide

/-- The scenarios of the three handlers called directly. -/
theorem handler_scenarios :
    (home .fresh (.new "GET" "/" "")).status = 200 ∧
    (home .fresh (.new "GET" "/" "")).body = "Hello from Snippetbox" ∧
    (home .fresh (.new "GET" "/foo" "")).status = 404 ∧
    (showSnippet .w64 .fresh (.new "GET" "/snippet" "id=5")).status = 200 ∧
    (showSnippet .w64 .fresh (.new "GET" "/snippet" "id=5")).body
      = "Display a specific snippet with ID 5..." ∧
    (showSnippet .w64 .fresh (.new "GET" "/snippet" "id=-1")).status = 404 ∧
    (showSnippet .w64 .fresh (.new "GET" "/snippet" "id=abc")).status = 404 ∧
    (createSnippet .fresh (.new "GET" "/snippet/create" "")).status = 405 ∧
    (createSnippet .fresh (.new "GET" "/snippet/create" "")).body = "Method Not Allowed\n" ∧
    (createSnippet .fresh (.new "GET" "/snippet/create" "")).sentHeader.Get "Allow" = "POST" ∧
    (createSnippet .fresh (.new "POST" "/snippet/create" "")).status = 200 ∧
    (createSnippet .fresh (.new "POST" "/snippet/create" "")).body
      = "Create a new snippet..." := by
  decide

/-! ## Decimal numerals: what `Nat.repr` prints -/

theorem decFold_nil (n : Nat) : decFold n [] = n := rfl

theorem decFold_cons (n : Nat) (c : Char) (cs : List Char) :
    decFold n (c :: cs) = decFold (n * 10 + (c.toNat - 48)) cs := rfl

theorem decFold_append (n : Nat) (xs ys : List Char) :
    decFold n (xs ++ ys) = decFold (decFold n xs) ys := by
  simp [decFold, List.foldl_append]

theorem le_decFold (ds : List Char) : ∀ n, n ≤ decFold n ds := by
  induction ds with
  | nil => intro n; exact Nat.le_refl n
  | cons c cs ih =>
    intro n
    rw [decFold_cons]
    have := ih (n * 10 + (c.toNat - 48))
    omega

theorem decFold_mono (ds : List Char) : ∀ a b, a ≤ b → decFold a ds ≤ decFold b ds := by
  induction ds with
  | nil => intro a b h; exact h
  | cons c cs ih =>
    intro a b h
    rw [decFold_cons, decFold_cons]
    exact ih _ _ (by omega)

/-- A run of `k` digits continued from `n` stays below `(n + 1) * 10 ^ k`. -/
theorem decFold_lt (ds : List Char) (hd : ∀ c ∈ ds, isDecDigit c = true) :
    ∀ n, decFold n ds < (n + 1) * 10 ^ ds.length := by
  induction ds with
  | nil => intro n; simp [decFold_nil]
  | cons c cs ih =>
    intro n
    rw [decFold_cons]
    have hc : isDecDigit c = true := hd c (List.mem_cons_self c cs)
    simp only [isDecDigit, Bool.and_eq_true, decide_eq_true_eq] at hc
    have h1 := ih (fun x hx => hd x (List.mem_cons_of_mem c hx)) (n * 10 + (c.toNat - 48))
    have h2 : (n * 10 + (c.toNat - 48) + 1) * 10 ^ cs.length ≤ ((n + 1) * 10) * 10 ^ cs.length :=
      Nat.mul_le_mul_right _ (by omega)
    simp only [List.length_cons, pow_succ]
    calc decFold (n * 10 + (c.toNat - 48)) cs
        < (n * 10 + (c.toNat - 48) + 1) * 10 ^ cs.length := h1
      _ ≤ ((n + 1) * 10) * 10 ^ cs.length := h2
      _ = (n + 1) * (10 ^ cs.length * 10) := by ring

theorem digitChar_toNat (m : Nat) (h : m < 10) : (Nat.digitChar m).toNat = 48 + m := by
  interval_cases m <;> rfl

theorem isDecDigit_digitChar (m : Nat) (h : m < 10) : isDecDigit (Nat.digitChar m) = true := by
  interval_cases m <;> rfl

theorem toDigitsCore_acc (fuel : Nat) : ∀ n acc,
    Nat.toDigitsCore 10 fuel n acc = Nat.toDigitsCore 10 fuel n [] ++ acc := by
  induction fuel with
  | zero => intro n acc; simp [Nat.toDigitsCore]
  | succ f ih =>
    intro n acc
    simp only [Nat.toDigitsCore]
    by_cases h0 : n / 10 = 0
    · simp [h0]
    · simp only [h0, if_false]
      rw [ih (n / 10) (Nat.digitChar (n % 10) :: acc), ih (n / 10) [Nat.digitChar (n % 10)]]
      simp

/-- With enough fuel the digits printed for `n` are decimal digits, at least one, and
they denote `n`. -/
theorem toDigitsCore_spec (fuel : Nat) : ∀ n, n < fuel →
    (∀ c ∈ Nat.toDigitsCore 10 fuel n [], isDecDigit c = true) ∧
    Nat.toDigitsCore 10 fuel n [] ≠ [] ∧ decValue (Nat.toDigitsCore 10 fuel n []) = n := by
  induction fuel with
  | zero => intro n h; omega
  | succ f ih =>
    intro n hn
    simp only [Nat.toDigitsCore]
    have hmod : n % 10 < 10 := Nat.mod_lt _ (by decide)
    by_cases h0 : n / 10 = 0
    · simp only [h0, if_true]
      have hlt : n < 10 := by omega
      have hm : n % 10 = n := Nat.mod_eq_of_lt hlt
      refine ⟨?_, by simp, ?_⟩
      · intro c hc
        simp only [List.mem_singleton] at hc
        rw [hc]; exact isDecDigit_digitChar _ hmod
      · simp only [decValue, decFold_cons, decFold_nil, digitChar_toNat _ hmod]
        omega
    · simp only [h0, if_false]
      rw [toDigitsCore_acc]
      have hlt : n / 10 < f := by omega
      obtain ⟨hd, _, hv⟩ := ih (n / 10) hlt
      refine ⟨?_, by simp, ?_⟩
      · intro c hc
        rcases List.mem_append.mp hc with h | h
        · exact hd c h
        · simp only [List.mem_singleton] at h
          rw [h]; exact isDecDigit_digitChar _ hmod
      · simp only [decValue] at hv ⊢
        rw [decFold_append, hv, decFold_cons, decFold_nil, digitChar_toNat _ hmod]
        omega

/-- The decimal representation `Nat.repr n` consists of decimal digits, at least one,
and they denote `n`. -/
theorem repr_spec (n : Nat) :
    (∀ c ∈ (Nat.repr n).data, isDecDigit c = true) ∧ (Nat.repr n).data ≠ [] ∧
    decValue (Nat.repr n).data = n := by
  have h := toDigitsCore_spec (n + 1) n (Nat.lt_succ_self n)
  simpa [Nat.repr, Nat.toDigits, List.asString] using h

/-! ## `strconv.ParseUint` on decimal digits -/

theorem digitOf_of_digit (c : Char) (h : isDecDigit c = true) :
    digitOf c = some (c.toNat - 48) ∧ c.toNat - 48 < 10 := by
  simp only [isDecDigit, Bool.and_eq_true, decide_eq_true_eq] at h
  refine ⟨?_, by omega⟩
  simp [digitOf, h]

theorem digitOf_of_not_digit (c : Char) (h : isDecDigit c = false) :
    digitOf c = none ∨ ∃ d, digitOf c = some d ∧ d ≥ 10 := by
  have h2 : ¬ (48 ≤ c.toNat ∧ c.toNat ≤ 57) := by
    intro hc
    simp [isDecDigit, hc] at h
  unfold digitOf
  rw [if_neg h2]
  by_cases hl : 97 ≤ lower c ∧ lower c ≤ 122
  · rw [if_pos hl]
    exact Or.inr ⟨_, rfl, by omega⟩
  · rw [if_neg hl]
    exact Or.inl rfl

/-- The loop of `ParseUint` stops with a syntax error at a byte that is no decimal digit. -/
theorem parseUintLoop_not_digit (maxVal cutoff : Nat) (c : Char) (cs : List Char) (n : Nat)
    (h : isDecDigit c = false) :
    parseUintLoop maxVal cutoff (c :: cs) n = (0, some .ErrSyntax) := by
  rcases digitOf_of_not_digit c h with h1 | ⟨d, h1, h2⟩
  · simp [parseUintLoop, h1]
  · simp [parseUintLoop, h1, h2]

/-- On decimal digits the loop of `ParseUint` returns the number they denote when it
is at most `maxVal`, and `maxVal` with a range error when it is larger. -/
theorem parseUintLoop_digits (maxVal : Nat) (hmax : maxVal < 2 ^ 64) (ds : List Char)
    (hd : ∀ c ∈ ds, isDecDigit c = true) : ∀ n, n ≤ maxVal →
    parseUintLoop maxVal 1844674407370955162 ds n =
      if decFold n ds ≤ maxVal then (decFold n ds, none) else (maxVal, some .ErrRange) := by
  have e64 : (2 : Nat) ^ 64 = 18446744073709551616 := by norm_num
  rw [e64] at hmax
  induction ds with
  | nil => intro n hn; simp [parseUintLoop, decFold_nil, hn]
  | cons c cs ih =>
    intro n hn
    obtain ⟨hdig, hlt⟩ := digitOf_of_digit c (hd c (List.mem_cons_self c cs))
    have ih2 := ih (fun x hx => hd x (List.mem_cons_of_mem c hx))
    have hle := le_decFold cs (n * 10 + (c.toNat - 48))
    rw [decFold_cons]
    simp only [parseUintLoop, hdig, e64]
    rw [if_neg (by omega)]
    by_cases hcut : n ≥ 1844674407370955162
    · rw [if_pos hcut, if_neg (by omega)]
    · rw [if_neg hcut]
      have h10 : n * 10 % 18446744073709551616 = n * 10 := Nat.mod_eq_of_lt (by omega)
      rw [h10]
      by_cases hov : n * 10 + (c.toNat - 48) ≤ maxVal
      · have h11 : (n * 10 + (c.toNat - 48)) % 18446744073709551616 = n * 10 + (c.toNat - 48) :=
          Nat.mod_eq_of_lt (by omega)
        rw [h11, if_neg (by omega)]
        exact ih2 _ hov
      · have hcond : (n * 10 + (c.toNat - 48)) % 18446744073709551616 < n * 10 ∨
            (n * 10 + (c.toNat - 48)) % 18446744073709551616 > maxVal := by omega
        rw [if_pos hcond, if_neg (by omega)]

/-- The loop of `ParseUint` ends in an error when some byte is no decimal digit: a
syntax error at that byte, or a range error at a digit before it. -/
theorem parseUintLoop_bad (maxVal cutoff : Nat) (ds : List Char)
    (hb : ∃ c ∈ ds, isDecDigit c = false) : ∀ n,
    parseUintLoop maxVal cutoff ds n = (0, some .ErrSyntax) ∨
    parseUintLoop maxVal cutoff ds n = (maxVal, some .ErrRange) := by
  induction ds with
  | nil => obtain ⟨c, hc, _⟩ := hb; simp at hc
  | cons c cs ih =>
    intro n
    cases hc : isDecDigit c with
    | false => rw [parseUintLoop_not_digit _ _ _ _ _ hc]; exact Or.inl rfl
    | true =>
      have hb2 : ∃ x ∈ cs, isDecDigit x = false := by
        obtain ⟨x, hx, hxd⟩ := hb
        rcases List.mem_cons.mp hx with rfl | hx
        · rw [hc] at hxd; cases hxd
        · exact ⟨x, hx, hxd⟩
      obtain ⟨hdig, hlt⟩ := digitOf_of_digit c hc
      simp only [parseUintLoop, hdig]
      rw [if_neg (by omega)]
      split_ifs
      · exact Or.inr rfl
      · exact Or.inr rfl
      · exact ih hb2 _

/-! ## The fast path of `strconv.Atoi` -/

/-- Conversion to `int` changes no value that an `int` can hold. -/
theorem wrapInt_of_range (bits : Nat) (hb : 1 ≤ bits) (z : Int)
    (h1 : -(2 : Int) ^ (bits - 1) ≤ z) (h2 : z < (2 : Int) ^ (bits - 1)) : wrapInt bits z = z := by
  have hp : (2 : Int) ^ bits = 2 * 2 ^ (bits - 1) := by
    have : bits = (bits - 1) + 1 := by omega
    conv_lhs => rw [this, pow_succ]
    ring
  unfold wrapInt
  rw [Int.emod_eq_of_lt (by omega) (by omega)]
  omega

theorem atoiFastLoop_digits (bits : Nat) (hb : 1 ≤ bits) (ds : List Char)
    (hd : ∀ c ∈ ds, isDecDigit c = true) : ∀ n : Nat, decFold n ds < 2 ^ (bits - 1) →
    atoiFastLoop bits ds (n : Int) = some ((decFold n ds : Nat) : Int) := by
  induction ds with
  | nil => intro n _; simp [atoiFastLoop, decFold_nil]
  | cons c cs ih =>
    intro n hn
    have hc := hd c (List.mem_cons_self c cs)
    simp only [isDecDigit, Bool.and_eq_true, decide_eq_true_eq] at hc
    rw [decFold_cons] at hn ⊢
    have hle := le_decFold cs (n * 10 + (c.toNat - 48))
    have hlt : ((n * 10 + (c.toNat - 48) : Nat) : Int) < (2 : Int) ^ (bits - 1) := by
      have : n * 10 + (c.toNat - 48) < 2 ^ (bits - 1) := by omega
      exact_mod_cast this
    have hpos : (0 : Int) < (2 : Int) ^ (bits - 1) := by positivity
    have hw : wrapInt bits ((n : Int) * 10 + ((c.toNat - 48 : Nat) : Int))
        = ((n * 10 + (c.toNat - 48) : Nat) : Int) := by
      have e : (n : Int) * 10 + ((c.toNat - 48 : Nat) : Int)
          = ((n * 10 + (c.toNat - 48) : Nat) : Int) := by push_cast; ring
      rw [e]
      exact wrapInt_of_range bits hb _ (by omega) hlt
    simp only [atoiFastLoop]
    rw [if_neg (by omega), hw]
    exact ih (fun x hx => hd x (List.mem_cons_of_mem c hx)) _ hn

theorem atoiFastLoop_bad (bits : Nat) (ds : List Char)
    (hb : ∃ c ∈ ds, isDecDigit c = false) : ∀ n, atoiFastLoop bits ds n = none := by
  induction ds with
  | nil => obtain ⟨c, hc, _⟩ := hb; simp at hc
  | cons c cs ih =>
    intro n
    simp only [atoiFastLoop]
    by_cases hc : c.toNat < 48 ∨ c.toNat - 48 > 9
    · rw [if_pos hc]
    · rw [if_neg hc]
      apply ih
      obtain ⟨x, hx, hxd⟩ := hb
      rcases List.mem_cons.mp hx with rfl | hx
      · exfalso
        have : isDecDigit x = true := by
          simp only [isDecDigit, Bool.and_eq_true, decide_eq_true_eq]; omega
        rw [this] at hxd; cases hxd
      · exact ⟨x, hx, hxd⟩

/-- A string has at least as many bytes as characters. -/
theorem length_le_utf8ByteSize_go (cs : List Char) : cs.length ≤ String.utf8ByteSize.go cs := by
  induction cs with
  | nil => simp [String.utf8ByteSize.go]
  | cons c cs ih =>
    have := Char.utf8Size_pos c
    simp only [String.utf8ByteSize.go, List.length_cons]
    omega

theorem length_le_utf8ByteSize (s : String) : s.data.length ≤ s.utf8ByteSize := by
  cases s with
  | mk cs => exact length_le_utf8ByteSize_go cs

/-! ## `strconv.ParseInt` and `strconv.Atoi` on decimal numerals -/

theorem ParseUint_digits (ws : WordSize) (ds : List Char) (hne : ds ≠ [])
    (hd : ∀ c ∈ ds, isDecDigit c = true) :
    ParseUint ws ds =
      if decValue ds ≤ 2 ^ intSize ws - 1 then (decValue ds, none)
      else (2 ^ intSize ws - 1, some .ErrRange) := by
  cases ws
  · have h := parseUintLoop_digits (2 ^ 32 - 1) (by norm_num) ds hd 0 (by norm_num)
    simp only [ParseUint, if_neg hne, intSize, decValue]
    norm_num at h ⊢
    exact h
  · have h := parseUintLoop_digits (2 ^ 64 - 1) (by norm_num) ds hd 0 (by norm_num)
    simp only [ParseUint, if_neg hne, intSize, decValue]
    norm_num at h ⊢
    exact h

theorem ParseUint_bad (ws : WordSize) (ds : List Char)
    (hb : ds = [] ∨ ∃ c ∈ ds, isDecDigit c = false) :
    ParseUint ws ds = (0, some .ErrSyntax) ∨
    ParseUint ws ds = (2 ^ intSize ws - 1, some .ErrRange) := by
  rcases hb with rfl | hb
  · exact Or.inl rfl
  · have hne : ds ≠ [] := by
      obtain ⟨c, hc, _⟩ := hb
      exact List.ne_nil_of_mem hc
    have e : (2 ^ intSize ws % 2 ^ 64 + 2 ^ 64 - 1) % 2 ^ 64 = 2 ^ intSize ws - 1 := by
      cases ws <;> norm_num [intSize]
    have h := parseUintLoop_bad (2 ^ intSize ws - 1) ((2 ^ 64 - 1) / 10 + 1) ds hb 0
    simp only [ParseUint, if_neg hne, e]
    exact h

theorem wrapInt64_small (v : Nat) (h : v < 9223372036854775808) : wrapInt 64 (v : Int) = v := by
  apply wrapInt_of_range 64 (by norm_num)
  · have : (0 : Int) ≤ (v : Int) := Int.ofNat_nonneg v
    have : (0 : Int) < (2 : Int) ^ (64 - 1) := by positivity
    omega
  · norm_num
    omega

theorem wrapInt64_neg (v : Nat) (h : v ≤ 9223372036854775808) :
    wrapInt 64 (-wrapInt 64 (v : Int)) = -(v : Int) := by
  rcases Nat.lt_or_ge v 9223372036854775808 with h1 | h1
  · rw [wrapInt64_small v h1]
    apply wrapInt_of_range 64 (by norm_num)
    · norm_num
      omega
    · norm_num
      omega
  · have : v = 9223372036854775808 := by omega
    subst this
    decide

theorem wrapInt64_pred (K : Nat) (h1 : 1 ≤ K) (h2 : K ≤ 9223372036854775808) :
    wrapInt 64 (((K + 2 ^ 64 - 1) % 2 ^ 64 : Nat) : Int) = (K : Int) - 1 := by
  have e : (K + 2 ^ 64 - 1) % 2 ^ 64 = K - 1 := by
    norm_num
    omega
  rw [e, wrapInt64_small (K - 1) (by omega)]
  omega

theorem intSize_facts (ws : WordSize) :
    1 ≤ 2 ^ (intSize ws - 1) ∧ 2 ^ (intSize ws - 1) ≤ 9223372036854775808 ∧
    2 ^ (intSize ws - 1) < 2 ^ intSize ws - 1 ∧
    2 ^ (intSize ws - 1) % 2 ^ 64 = 2 ^ (intSize ws - 1) := by
  cases ws <;> norm_num [intSize]

theorem ParseInt_of_ParseUint (ws : WordSize) (c : Char) (rest : List Char) (v : Nat)
    (hu : ParseUint ws (if c = '+' then rest else if c = '-' then rest else c :: rest) =
      if v ≤ 2 ^ intSize ws - 1 then (v, none) else (2 ^ intSize ws - 1, some .ErrRange)) :
    ParseInt ws (c :: rest) =
      if c = '-' then
        (if v ≤ 2 ^ (intSize ws - 1) then (-(v : Int), none)
         else (-(2 : Int) ^ (intSize ws - 1), some NumError.ErrRange))
      else
        (if v < 2 ^ (intSize ws - 1) then ((v : Int), none)
         else ((2 : Int) ^ (intSize ws - 1) - 1, some NumError.ErrRange)) := by
  simp only [ParseInt]
  rw [hu]
  obtain ⟨f1, f2, f3, f4⟩ := intSize_facts ws
  have f5 : (2 : Int) ^ (intSize ws - 1) = ((2 ^ (intSize ws - 1) : Nat) : Int) := by push_cast; rfl
  rw [f4, f5]
  generalize 2 ^ (intSize ws - 1) = K at f1 f2 f3 ⊢
  generalize 2 ^ intSize ws - 1 = M at f3 ⊢
  have hpm : ¬ ('-' = '+') := by decide
  rw [wrapInt64_pred K f1 f2, wrapInt64_neg K f2]
  by_cases hm : c = '-'
  · subst hm
    by_cases h1 : v ≤ M
    · by_cases h2 : v ≤ K
      · have h3 : ¬ v > K := by omega
        simp [h1, h2, h3, wrapInt64_neg v (by omega)]
      · have h3 : v > K := by omega
        simp [h1, h2, h3]
    · have h2 : ¬ v ≤ K := by omega
      have h3 : M > K := by omega
      simp [h1, h2, h3]
  · by_cases h1 : v ≤ M
    · by_cases h2 : v < K
      · have h3 : ¬ v ≥ K := by omega
        simp [hm, h1, h2, h3, wrapInt64_small v (by omega)]
      · have h3 : v ≥ K := by omega
        simp [hm, h1, h2, h3]
    · have h2 : ¬ v < K := by omega
      have h3 : M ≥ K := by omega
      simp [hm, h1, h2, h3]

theorem fast_path_bound (ws : WordSize) (sLen : Nat)
    (hf : (intSize ws = 32 ∧ (0 < sLen ∧ sLen < 10)) ∨ (intSize ws = 64 ∧ (0 < sLen ∧ sLen < 19)))
    (ds : List Char) (hlen : ds.length ≤ sLen) (hd : ∀ c ∈ ds, isDecDigit c = true) :
    decValue ds < 2 ^ (intSize ws - 1) := by
  have h1 := decFold_lt ds hd 0
  simp only [zero_add, one_mul] at h1
  cases ws
  · have hl : ds.length ≤ 9 := by
      rcases hf with ⟨_, _, h⟩ | ⟨h, _⟩
      · omega
      · simp [intSize] at h
    have h2 : 10 ^ ds.length ≤ 10 ^ 9 := Nat.pow_le_pow_right (by norm_num) hl
    have h3 : (10 : Nat) ^ 9 < 2 ^ (intSize .w32 - 1) := by norm_num [intSize]
    exact lt_of_lt_of_le h1 (le_of_lt (lt_of_le_of_lt h2 h3))
  · have hl : ds.length ≤ 18 := by
      rcases hf with ⟨h, _⟩ | ⟨_, _, h⟩
      · simp [intSize] at h
      · omega
    have h2 : 10 ^ ds.length ≤ 10 ^ 18 := Nat.pow_le_pow_right (by norm_num) hl
    have h3 : (10 : Nat) ^ 18 < 2 ^ (intSize .w64 - 1) := by norm_num [intSize]
    exact lt_of_lt_of_le h1 (le_of_lt (lt_of_le_of_lt h2 h3))

theorem intSize_pos (ws : WordSize) : 1 ≤ intSize ws := by cases ws <;> simp [intSize]

theorem ParseInt_numeral (ws : WordSize) (c : Char) (rest : List Char)
    (hne : (if c = '+' then rest else if c = '-' then rest else c :: rest) ≠ [])
    (hd : ∀ x ∈ (if c = '+' then rest else if c = '-' then rest else c :: rest),
      isDecDigit x = true) :
    ParseInt ws (c :: rest) =
      if c = '-' then
        (if decValue (if c = '+' then rest else if c = '-' then rest else c :: rest)
            ≤ 2 ^ (intSize ws - 1) then
          (-(decValue (if c = '+' then rest else if c = '-' then rest else c :: rest) : Int), none)
         else (-(2 : Int) ^ (intSize ws - 1), some NumError.ErrRange))
      else
        (if decValue (if c = '+' then rest else if c = '-' then rest else c :: rest)
            < 2 ^ (intSize ws - 1) then
          ((decValue (if c = '+' then rest else if c = '-' then rest else c :: rest) : Int), none)
         else ((2 : Int) ^ (intSize ws - 1) - 1, some NumError.ErrRange)) :=
  ParseInt_of_ParseUint ws c rest _ (ParseUint_digits ws _ hne hd)

/-- What `Atoi` returns on a decimal numeral with digits `ds` after the optional sign:
the integer it denotes when an `int` holds it, else the nearest `int` with a range error. -/
theorem Atoi_numeral (ws : WordSize) (s : String) (c : Char) (rest : List Char)
    (hs : s.data = c :: rest)
    (hne : (if c = '+' then rest else if c = '-' then rest else c :: rest) ≠ [])
    (hd : ∀ x ∈ (if c = '+' then rest else if c = '-' then rest else c :: rest),
      isDecDigit x = true) :
    Atoi ws s =
      if c = '-' then
        (if decValue (if c = '+' then rest else if c = '-' then rest else c :: rest)
            ≤ 2 ^ (intSize ws - 1) then
          (-(decValue (if c = '+' then rest else if c = '-' then rest else c :: rest) : Int), none)
         else (-(2 : Int) ^ (intSize ws - 1), some NumError.ErrRange))
      else
        (if decValue (if c = '+' then rest else if c = '-' then rest else c :: rest)
            < 2 ^ (intSize ws - 1) then
          ((decValue (if c = '+' then rest else if c = '-' then rest else c :: rest) : Int), none)
         else ((2 : Int) ^ (intSize ws - 1) - 1, some NumError.ErrRange)) := by
  have hb := intSize_pos ws
  have hpos : (0 : Int) < (2 : Int) ^ (intSize ws - 1) := by positivity
  have hcast : ∀ a : Nat, a < 2 ^ (intSize ws - 1) → (a : Int) < (2 : Int) ^ (intSize ws - 1) := by
    intro a ha; exact_mod_cast ha
  have hcastle : ∀ a : Nat, a ≤ 2 ^ (intSize ws - 1) → (a : Int) ≤ (2 : Int) ^ (intSize ws - 1) := by
    intro a ha; exact_mod_cast ha
  have hnn : ∀ a : Nat, (0 : Int) ≤ (a : Int) := fun a => Int.ofNat_nonneg a
  have hsl := ParseInt_numeral ws c rest hne hd
  have hlen : (if c = '+' then rest else if c = '-' then rest else c :: rest).length
      ≤ s.utf8ByteSize := by
    have h1 := length_le_utf8ByteSize s
    rw [hs] at h1
    simp only [List.length_cons] at h1
    split_ifs <;> simp <;> omega
  have hds : (if (decide (c = '-') || decide (c = '+')) = true then rest else c :: rest)
      = (if c = '+' then rest else if c = '-' then rest else c :: rest) := by
    by_cases h1 : c = '+' <;> by_cases h2 : c = '-' <;> simp [h1, h2]
  have hsr : ¬ ((decide (c = '-') || decide (c = '+')) = true ∧ rest.length < 1) := by
    rintro ⟨h1, h2⟩
    have h3 : rest = [] := List.length_eq_zero.mp (by omega)
    rw [← hds, if_pos h1] at hne
    exact hne h3
  unfold Atoi
  simp only [hs]
  rw [hsl, if_neg hsr, hds]
  generalize (if c = '+' then rest else if c = '-' then rest else c :: rest) = ds at hne hd hsl hlen ⊢
  by_cases hf : (intSize ws = 32 ∧ (0 < s.utf8ByteSize ∧ s.utf8ByteSize < 10)) ∨
      (intSize ws = 64 ∧ (0 < s.utf8ByteSize ∧ s.utf8ByteSize < 19))
  · rw [if_pos hf]
    have hv := fast_path_bound ws _ hf ds hlen hd
    have hfl := atoiFastLoop_digits (intSize ws) hb ds hd 0 hv
    simp only [Nat.cast_zero] at hfl
    rw [hfl]
    simp only
    have hv2 : decValue ds ≤ 2 ^ (intSize ws - 1) := le_of_lt hv
    rw [if_pos hv2, if_pos hv]
    by_cases hm : c = '-'
    · rw [if_pos hm, if_pos hm]
      have := wrapInt_of_range (intSize ws) hb (-((decFold 0 ds : Nat) : Int))
        (by have := hcastle _ hv2; simp only [decValue] at this; omega)
        (by have := hnn (decFold 0 ds); omega)
      rw [this]; rfl
    · rw [if_neg hm, if_neg hm]; rfl
  · rw [if_neg hf]
    by_cases hm : c = '-'
    · simp only [if_pos hm]
      by_cases h1 : decValue ds ≤ 2 ^ (intSize ws - 1)
      · simp only [if_pos h1]
        rw [wrapInt_of_range (intSize ws) hb _ (by have := hcastle _ h1; omega)
          (by have := hnn (decValue ds); omega)]
      · simp only [if_neg h1]
        rw [wrapInt_of_range (intSize ws) hb _ (by omega) (by omega)]
    · simp only [if_neg hm]
      by_cases h1 : decValue ds < 2 ^ (intSize ws - 1)
      · simp only [if_pos h1]
        rw [wrapInt_of_range (intSize ws) hb _ (by have := hnn (decValue ds); omega) (hcast _ h1)]
      · simp only [if_neg h1]
        rw [wrapInt_of_range (intSize ws) hb _ (by omega) (by omega)]

theorem ParseInt_bad (ws : WordSize) (c : Char) (rest : List Char)
    (hb : (if c = '+' then rest else if c = '-' then rest else c :: rest) = [] ∨
      ∃ x ∈ (if c = '+' then rest else if c = '-' then rest else c :: rest),
        isDecDigit x = false) :
    (ParseInt ws (c :: rest)).2 ≠ none := by
  obtain ⟨f1, f2, f3, f4⟩ := intSize_facts ws
  simp only [ParseInt]
  rcases ParseUint_bad ws _ hb with h | h
  · rw [h]; simp
  · rw [h, f4]
    generalize 2 ^ (intSize ws - 1) = K at f1 f2 f3 ⊢
    generalize 2 ^ intSize ws - 1 = M at f3 ⊢
    have h1 : M ≥ K := le_of_lt f3
    have h2 : M > K := f3
    by_cases hp : c = '+'
    · subst hp
      simp [h1, h2]
    · by_cases hm : c = '-'
      · subst hm
        simp [h1, h2]
      · simp [hp, hm, h1, h2]

theorem exists_not_digit (l : List Char) (h : l.all isDecDigit = false) :
    ∃ x ∈ l, isDecDigit x = false := by
  induction l with
  | nil => simp at h
  | cons a as ih =>
    simp only [List.all_cons, Bool.and_eq_false_iff] at h
    rcases h with h | h
    · exact ⟨a, List.mem_cons_self a as, h⟩
    · obtain ⟨x, hx, hxd⟩ := ih h
      exact ⟨x, List.mem_cons_of_mem a hx, hxd⟩

theorem not_isDecimal_cons (c : Char) (rest : List Char) (h : isDecimal (c :: rest) = false) :
    (if c = '+' then rest else if c = '-' then rest else c :: rest) = [] ∨
      ∃ x ∈ (if c = '+' then rest else if c = '-' then rest else c :: rest),
        isDecDigit x = false := by
  simp only [isDecimal] at h
  have hsigned : ∀ l : List Char, (!l.isEmpty && l.all isDecDigit) = false →
      l = [] ∨ ∃ x ∈ l, isDecDigit x = false := by
    intro l hl
    cases l with
    | nil => exact Or.inl rfl
    | cons a as =>
      right
      simp only [Bool.and_eq_false_iff] at hl
      rcases hl with hl | hl
      · simp at hl
      · exact exists_not_digit _ hl
  by_cases hp : c = '+'
  · rw [if_pos (Or.inl hp)] at h
    rw [if_pos hp]
    exact hsigned rest h
  · by_cases hm : c = '-'
    · rw [if_pos (Or.inr hm)] at h
      rw [if_neg hp, if_pos hm]
      exact hsigned rest h
    · have hor : ¬ (c = '+' ∨ c = '-') := by tauto
      rw [if_neg hor] at h
      rw [if_neg hp, if_neg hm]
      exact Or.inr (exists_not_digit _ h)

/-- `Atoi` reports an error on every string that is no decimal numeral. -/
theorem Atoi_not_numeral (ws : WordSize) (s : String) (h : isDecimal s.data = false) :
    (Atoi ws s).2 ≠ none := by
  cases hs : s.data with
  | nil =>
    have e : s = "" := by
      cases s with
      | mk cs => simp only at hs; rw [hs]
    subst e
    cases ws <;> decide
  | cons c rest =>
    rw [hs] at h
    have hb := not_isDecimal_cons c rest h
    have hds : (if (decide (c = '-') || decide (c = '+')) = true then rest else c :: rest)
        = (if c = '+' then rest else if c = '-' then rest else c :: rest) := by
      by_cases h1 : c = '+' <;> by_cases h2 : c = '-' <;> simp [h1, h2]
    unfold Atoi
    simp only [hs]
    by_cases hf : (intSize ws = 32 ∧ (0 < s.utf8ByteSize ∧ s.utf8ByteSize < 10)) ∨
        (intSize ws = 64 ∧ (0 < s.utf8ByteSize ∧ s.utf8ByteSize < 19))
    · rw [if_pos hf]
      by_cases hsr : (decide (c = '-') || decide (c = '+')) = true ∧ rest.length < 1
      · rw [if_pos hsr]; simp
      · rw [if_neg hsr, hds]
        have hbad : ∃ x ∈ (if c = '+' then rest else if c = '-' then rest else c :: rest),
            isDecDigit x = false := by
          rcases hb with h0 | h0
          · exfalso
            rw [← hds] at h0
            by_cases hsg : (decide (c = '-') || decide (c = '+')) = true
            · rw [if_pos hsg] at h0
              exact hsr ⟨hsg, by rw [h0]; simp⟩
            · rw [if_neg hsg] at h0
              cases h0
          · exact h0
        rw [atoiFastLoop_bad _ _ hbad]
        simp
    · rw [if_neg hf]
      exact ParseInt_bad ws c rest hb

theorem isDecimal_cons (c : Char) (rest : List Char) (h : isDecimal (c :: rest) = true) :
    (if c = '+' then rest else if c = '-' then rest else c :: rest) ≠ [] ∧
    (∀ x ∈ (if c = '+' then rest else if c = '-' then rest else c :: rest),
      isDecDigit x = true) := by
  simp only [isDecimal] at h
  have hsigned : ∀ l : List Char, (!l.isEmpty && l.all isDecDigit) = true →
      l ≠ [] ∧ ∀ x ∈ l, isDecDigit x = true := by
    intro l hl
    simp only [Bool.and_eq_true, List.all_eq_true] at hl
    refine ⟨?_, hl.2⟩
    rintro rfl
    simp at hl
  by_cases hp : c = '+'
  · rw [if_pos (Or.inl hp)] at h
    rw [if_pos hp]
    exact hsigned rest h
  · by_cases hm : c = '-'
    · rw [if_pos (Or.inr hm)] at h
      rw [if_neg hp, if_pos hm]
      exact hsigned rest h
    · have hor : ¬ (c = '+' ∨ c = '-') := by tauto
      rw [if_neg hor] at h
      rw [if_neg hp, if_neg hm]
      exact ⟨by simp, by simpa using h⟩

/-- `Atoi` on a decimal numeral that an `int` holds returns the integer it denotes and
no error. -/
theorem Atoi_of_isDecimal (ws : WordSize) (s : String) (h : isDecimal s.data = true)
    (hlo : -(2 : Int) ^ (intSize ws - 1) ≤ decimalInt s.data)
    (hhi : decimalInt s.data < (2 : Int) ^ (intSize ws - 1)) :
    Atoi ws s = (decimalInt s.data, none) := by
  cases hs : s.data with
  | nil => rw [hs] at h; simp [isDecimal] at h
  | cons c rest =>
    rw [hs] at h hlo hhi
    obtain ⟨hne, hd⟩ := isDecimal_cons c rest h
    rw [Atoi_numeral ws s c rest hs hne hd]
    have hpm : ¬ ('-' = '+') := by decide
    simp only [decimalInt] at hlo hhi ⊢
    by_cases hm : c = '-'
    · subst hm
      simp only [if_true, if_neg hpm] at hlo hhi ⊢
      have h1 : decValue rest ≤ 2 ^ (intSize ws - 1) := by
        have : ((decValue rest : Nat) : Int) ≤ ((2 ^ (intSize ws - 1) : Nat) : Int) := by
          push_cast; omega
        exact_mod_cast this
      rw [if_pos h1]
    · simp only [if_neg hm] at hlo hhi ⊢
      by_cases hp : c = '+'
      · simp only [if_pos hp] at hlo hhi ⊢
        have h1 : decValue rest < 2 ^ (intSize ws - 1) := by exact_mod_cast hhi
        rw [if_pos h1]
      · simp only [if_neg hp] at hlo hhi ⊢
        have h1 : decValue (c :: rest) < 2 ^ (intSize ws - 1) := by exact_mod_cast hhi
        rw [if_pos h1]

/-- `Atoi` on a decimal numeral that no `int` holds reports a range error. -/
theorem Atoi_out_of_range (ws : WordSize) (s : String) (h : isDecimal s.data = true)
    (hout : decimalInt s.data < -(2 : Int) ^ (intSize ws - 1) ∨
      (2 : Int) ^ (intSize ws - 1) ≤ decimalInt s.data) :
    (Atoi ws s).2 = some .ErrRange := by
  cases hs : s.data with
  | nil => rw [hs] at h; simp [isDecimal] at h
  | cons c rest =>
    rw [hs] at h hout
    obtain ⟨hne, hd⟩ := isDecimal_cons c rest h
    rw [Atoi_numeral ws s c rest hs hne hd]
    have hpm : ¬ ('-' = '+') := by decide
    have hpos : (0 : Int) < (2 : Int) ^ (intSize ws - 1) := by positivity
    simp only [decimalInt] at hout ⊢
    by_cases hm : c = '-'
    · subst hm
      simp only [if_true, if_neg hpm] at hout ⊢
      have h1 : ¬ decValue rest ≤ 2 ^ (intSize ws - 1) := by
        intro hle
        have : ((decValue rest : Nat) : Int) ≤ ((2 ^ (intSize ws - 1) : Nat) : Int) := by
          exact_mod_cast hle
        push_cast at this
        omega
      rw [if_neg h1]
    · simp only [if_neg hm] at hout ⊢
      by_cases hp : c = '+'
      · simp only [if_pos hp] at hout ⊢
        have h1 : ¬ decValue rest < 2 ^ (intSize ws - 1) := by
          intro hlt
          have : ((decValue rest : Nat) : Int) < ((2 ^ (intSize ws - 1) : Nat) : Int) := by
            exact_mod_cast hlt
          push_cast at this
          omega
        rw [if_neg h1]
      · simp only [if_neg hp] at hout ⊢
        have h1 : ¬ decValue (c :: rest) < 2 ^ (intSize ws - 1) := by
          intro hlt
          have : ((decValue (c :: rest) : Nat) : Int) < ((2 ^ (intSize ws - 1) : Nat) : Int) := by
            exact_mod_cast hlt
          push_cast at this
          omega
        rw [if_neg h1]

/-- `Atoi` succeeds exactly on the decimal numerals that an `int` holds. -/
theorem Atoi_ok_iff (ws : WordSize) (s : String) :
    (Atoi ws s).2 = none ↔
      (isDecimal s.data = true ∧ -(2 : Int) ^ (intSize ws - 1) ≤ decimalInt s.data ∧
        decimalInt s.data < (2 : Int) ^ (intSize ws - 1)) := by
  constructor
  · intro hok
    cases hdec : isDecimal s.data with
    | false => exact absurd hok (Atoi_not_numeral ws s hdec)
    | true =>
      refine ⟨rfl, ?_⟩
      by_contra hr
      have hout : decimalInt s.data < -(2 : Int) ^ (intSize ws - 1) ∨
          (2 : Int) ^ (intSize ws - 1) ≤ decimalInt s.data := by omega
      have := Atoi_out_of_range ws s hdec hout
      rw [hok] at this
      cases this
  · rintro ⟨h, hlo, hhi⟩
    rw [Atoi_of_isDecimal ws s h hlo hhi]

/-- `Atoi` reads the decimal representation of a natural number that an `int` holds
back as that number, and reports a range error on the others. -/
theorem Atoi_repr (ws : WordSize) (n : Nat) :
    Atoi ws (Nat.repr n) =
      if n < 2 ^ (intSize ws - 1) then ((n : Int), none)
      else ((2 : Int) ^ (intSize ws - 1) - 1, some NumError.ErrRange) := by
  obtain ⟨hd, hne, hv⟩ := repr_spec n
  cases hs : (Nat.repr n).data with
  | nil => exact absurd hs hne
  | cons c rest =>
    rw [hs] at hd hv
    have hc := hd c (List.mem_cons_self c rest)
    simp only [isDecDigit, Bool.and_eq_true, decide_eq_true_eq] at hc
    have h1 : c ≠ '+' := by rintro rfl; revert hc; decide
    have h2 : c ≠ '-' := by rintro rfl; revert hc; decide
    have hds : (if c = '+' then rest else if c = '-' then rest else c :: rest) = c :: rest := by
      rw [if_neg h1, if_neg h2]
    rw [Atoi_numeral ws _ c rest hs (by rw [hds]; simp) (by rw [hds]; exact hd)]
    rw [if_neg h2, hds, hv]

/-! ## `home` and `createSnippet` -/

/-- What `http.Error` leaves in a writer whose status line has not been written. -/
theorem Error_unwritten (w : ResponseWriter) (msg : String) (code : Nat)
    (hw : w.wroteHeader = false) :
    (Error w msg code).status = code ∧ (Error w msg code).body = w.body ++ (msg ++ "\n") ∧
    (Error w msg code).sentHeader =
      ((w.header.Del "Content-Length").Set "Content-Type" "text/plain; charset=utf-8").Set
        "X-Content-Type-Options" "nosniff" := by
  simp [Error, ResponseWriter.Write, ResponseWriter.WriteHeader, ResponseWriter.SetHeader,
    ResponseWriter.DelHeader, hw]

/-- A text is no part of a body that lacks its first character. -/
theorem not_infix_of_head_not_mem (c : Char) (t body : List Char) (h : c ∉ body) :
    ¬ (c :: t) <:+: body := by
  intro hin
  exact h (hin.subset (List.mem_cons_self c t))

/-- Claim C1: for every request whose method is not exactly POST, `createSnippet`
answers with status 405 and sends the header `Allow` with the single value POST. -/
theorem createSnippet_other_method (r : Request) (h : r.Method ≠ "POST") :
    (createSnippet .fresh r).status = 405 ∧
    (createSnippet .fresh r).sentHeader.Get "Allow" = "POST" ∧
    (createSnippet .fresh r).sentHeader.entries.lookup "Allow" = some ["POST"] := by
  simp only [createSnippet, if_pos h]
  decide

/-- Claim C1 at the empty method, at a lower-case `post` and at GET. -/
theorem createSnippet_other_method_witness :
    ((Request.new "" "/snippet/create" "").Method ≠ "POST" ∧
      (createSnippet .fresh (.new "" "/snippet/create" "")).status = 405) ∧
    ((Request.new "post" "/snippet/create" "").Method ≠ "POST" ∧
      (createSnippet .fresh (.new "post" "/snippet/create" "")).sentHeader.Get "Allow" = "POST") ∧
    (createSnippet .fresh (.new "GET" "/snippet/create" "")).status = 405 :=
  ⟨⟨by decide, (createSnippet_other_method (.new "" "/snippet/create" "") (by decide)).1⟩,
   ⟨by decide, (createSnippet_other_method (.new "post" "/snippet/create" "") (by decide)).2.1⟩,
   (createSnippet_other_method (.new "GET" "/snippet/create" "") (by decide)).1⟩

/-- Claim C4: for every request whose path is not exactly the slash, `home` answers
with status 404 and the standard not-found body, and the greeting is no part of the body. -/
theorem home_other_path (r : Request) (h : r.URL.Path ≠ "/") :
    (home .fresh r).status = 404 ∧ (home .fresh r).body = notFoundBody ∧
    ¬ "Hello from Snippetbox".data <:+: (home .fresh r).body.data := by
  simp only [home, if_pos h, NotFound]
  refine ⟨by decide, by decide, ?_⟩
  exact not_infix_of_head_not_mem _ _ _ (by decide)

/-- Claim C4 at the paths `/foo`, the empty path and `/snippet`. -/
theorem home_other_path_witness :
    ((Request.new "GET" "/foo" "").URL.Path ≠ "/" ∧
      (home .fresh (.new "GET" "/foo" "")).status = 404) ∧
    (home .fresh (.new "GET" "" "")).body = "404 page not found\n" ∧
    (home .fresh (.new "GET" "/snippet" "")).status = 404 :=
  ⟨⟨by decide, (home_other_path (.new "GET" "/foo" "") (by decide)).1⟩,
   (home_other_path (.new "GET" "" "") (by decide)).2.1,
   (home_other_path (.new "GET" "/snippet" "") (by decide)).1⟩

/-- Claim C5: for every request whose path is exactly the slash, `home` answers with
status 200 and the body `Hello from Snippetbox`, nothing more. -/
theorem home_root (r : Request) (h : r.URL.Path = "/") :
    (home .fresh r).status = 200 ∧ (home .fresh r).body = "Hello from Snippetbox" := by
  have h2 : ¬ r.URL.Path ≠ "/" := fun hne => hne h
  simp only [home, if_neg h2]
  decide

/-- Claim C5 at `GET /` and at `DELETE /?x=1`. -/
theorem home_root_witness :
    ((Request.new "GET" "/" "").URL.Path = "/" ∧
      (home .fresh (.new "GET" "/" "")).status = 200 ∧
      (home .fresh (.new "GET" "/" "")).body = "Hello from Snippetbox") ∧
    (home .fresh (.new "DELETE" "/" "x=1")).status = 200 :=
  ⟨⟨by decide, home_root (.new "GET" "/" "") (by decide)⟩,
   (home_root (.new "DELETE" "/" "x=1") (by decide)).1⟩

/-- Claim C6: for every request whose method is exactly POST, `createSnippet` answers
with status 200 and the body `Create a new snippet...`, nothing more. -/
theorem createSnippet_post (r : Request) (h : r.Method = "POST") :
    (createSnippet .fresh r).status = 200 ∧
    (createSnippet .fresh r).body = "Create a new snippet..." := by
  have h2 : ¬ r.Method ≠ "POST" := fun hne => hne h
  simp only [createSnippet, if_neg h2]
  decide

/-- Claim C6 at `POST /snippet/create`. -/
theorem createSnippet_post_witness :
    (Request.new "POST" "/snippet/create" "").Method = "POST" ∧
    (createSnippet .fresh (.new "POST" "/snippet/create" "")).status = 200 ∧
    (createSnippet .fresh (.new "POST" "/snippet/create" "")).body = "Create a new snippet..." :=
  ⟨by decide, createSnippet_post (.new "POST" "/snippet/create" "") (by decide)⟩

/-- Claim C7 as stated fails: at `GET /snippet/create` the body is not the bare text
`Method Not Allowed`; `http.Error` prints the text with `Fprintln`, so a line feed
follows it. -/
theorem createSnippet_body_not_bare_text :
    (Request.new "GET" "/snippet/create" "").Method ≠ "POST" ∧
    (createSnippet .fresh (.new "GET" "/snippet/create" "")).body ≠ "Method Not Allowed" ∧
    (createSnippet .fresh (.new "GET" "/snippet/create" "")).body = "Method Not Allowed\n" := by
  decide

/-- Claim C7, amended: for every request whose method is not POST, the body of the
response of `createSnippet` is the text `Method Not Allowed` followed by one line
feed, and the creation-confirmation text is no part of it. -/
theorem createSnippet_error_body (r : Request) (h : r.Method ≠ "POST") :
    (createSnippet .fresh r).body = "Method Not Allowed\n" ∧
    (createSnippet .fresh r).body = "Method Not Allowed" ++ "\n" ∧
    ¬ "Create a new snippet...".data <:+: (createSnippet .fresh r).body.data := by
  simp only [createSnippet, if_pos h]
  refine ⟨by decide, by decide, ?_⟩
  exact not_infix_of_head_not_mem _ _ _ (by decide)

/-- Claim C7, amended, at `GET /snippet/create` and at `PUT`. -/
theorem createSnippet_error_body_witness :
    ((Request.new "GET" "/snippet/create" "").Method ≠ "POST" ∧
      (createSnippet .fresh (.new "GET" "/snippet/create" "")).body = "Method Not Allowed\n") ∧
    (createSnippet .fresh (.new "PUT" "/snippet/create" "")).body = "Method Not Allowed\n" :=
  ⟨⟨by decide, (createSnippet_error_body (.new "GET" "/snippet/create" "") (by decide)).1⟩,
   (createSnippet_error_body (.new "PUT" "/snippet/create" "") (by decide)).1⟩

/-- Claim C10: two requests that agree on the URL path and on the query string get the same
response from `home` and the same response from `showSnippet`, whatever their
methods, on any writer; `createSnippet` answers POST and GET to one URL with
different statuses and bodies. -/
theorem method_independence (ws : WordSize) (w : ResponseWriter) (r1 r2 : Request)
    (hp : r1.URL.Path = r2.URL.Path) (hq : r1.URL.RawQuery = r2.URL.RawQuery) :
    home w r1 = home w r2 ∧ showSnippet ws w r1 = showSnippet ws w r2 ∧
    (createSnippet .fresh { r1 with Method := "POST" }).status ≠
      (createSnippet .fresh { r1 with Method := "GET" }).status ∧
    (createSnippet .fresh { r1 with Method := "POST" }).body ≠
      (createSnippet .fresh { r1 with Method := "GET" }).body := by
  refine ⟨?_, ?_, ?_, ?_⟩
  · simp only [home, NotFound, hp]
  · simp only [showSnippet, NotFound, URL.Query, hq]
  · simp only [createSnippet]; decide
  · simp only [createSnippet]; decide

/-- Claim C10 at GET, POST and DELETE for `/` and for `/snippet?id=5`. -/
theorem method_independence_witness :
    ((Request.new "GET" "/" "").URL.Path = (Request.new "POST" "/" "").URL.Path ∧
      (Request.new "GET" "/" "").URL.RawQuery = (Request.new "POST" "/" "").URL.RawQuery) ∧
    home .fresh (.new "GET" "/" "") = home .fresh (.new "POST" "/" "") ∧
    showSnippet .w64 .fresh (.new "GET" "/snippet" "id=5")
      = showSnippet .w64 .fresh (.new "DELETE" "/snippet" "id=5") ∧
    (createSnippet .fresh (.new "POST" "/snippet/create" "")).status ≠
      (createSnippet .fresh (.new "GET" "/snippet/create" "")).status :=
  ⟨⟨by decide, by decide⟩,
   (method_independence .w64 .fresh (.new "GET" "/" "") (.new "POST" "/" "") (by decide)
      (by decide)).1,
   (method_independence .w64 .fresh (.new "GET" "/snippet" "id=5")
      (.new "DELETE" "/snippet" "id=5") (by decide) (by decide)).2.1,
   (method_independence .w64 .fresh (.new "GET" "/snippet/create" "")
      (.new "GET" "/snippet/create" "") rfl rfl).2.2.1⟩

/-! ## `showSnippet` -/

theorem NotFound_fresh (r : Request) :
    (NotFound .fresh r).status = 404 ∧ (NotFound .fresh r).body = notFoundBody ∧
    ¬ "Display a specific snippet with ID ".data <:+: (NotFound .fresh r).body.data := by
  simp only [NotFound]
  refine ⟨by decide, by decide, ?_⟩
  exact not_infix_of_head_not_mem _ _ _ (by decide)

theorem fmtInt_natCast (n : Nat) : fmtInt (n : Int) = Nat.repr n := by
  have h : ¬ ((n : Int) < 0) := by omega
  simp [fmtInt, h]

/-- The response of `showSnippet` when `Atoi` returns `id` without error and `id` is
at least 1. -/
theorem showSnippet_ok (ws : WordSize) (w : ResponseWriter) (r : Request) (id : Int)
    (h : Atoi ws (r.URL.Query.Get "id") = (id, none)) (hid : 1 ≤ id) :
    showSnippet ws w r = w.Write (snippetBody id) := by
  have hc : ¬ ((none : Option NumError) ≠ none ∨ id < 1) := by
    rintro (h1 | h1)
    · exact h1 rfl
    · omega
  simp only [showSnippet, h, if_neg hc]

/-- The response of `showSnippet` when `Atoi` reports an error or returns less than 1. -/
theorem showSnippet_fail (ws : WordSize) (w : ResponseWriter) (r : Request)
    (h : (Atoi ws (r.URL.Query.Get "id")).2 ≠ none ∨ (Atoi ws (r.URL.Query.Get "id")).1 < 1) :
    showSnippet ws w r = NotFound w r := by
  simp only [showSnippet, if_pos h]

/-- Claim C2 as stated fails: the decimal representation of 9223372036854775808, an
integer that is at least 1, is the id of `GET /snippet?id=9223372036854775808`, and
with a 64-bit `int` the response is 404, not 200; so is the response to 2147483648
with a 32-bit `int`. -/
theorem showSnippet_large_id_not_found :
    (1 ≤ 9223372036854775808 ∧
      (Request.new "GET" "/snippet" "id=9223372036854775808").URL.Query.Get "id"
        = Nat.repr 9223372036854775808 ∧
      (showSnippet .w64 .fresh (.new "GET" "/snippet" "id=9223372036854775808")).status = 404) ∧
    ((Request.new "GET" "/snippet" "id=2147483648").URL.Query.Get "id" = Nat.repr 2147483648 ∧
      (showSnippet .w32 .fresh (.new "GET" "/snippet" "id=2147483648")).status = 404) := by
  decide

/-- Claim C2, amended: for every integer `n` from 1 to the largest `int`, a request to
`showSnippet` whose query parameter id is the decimal representation of `n` gets
status 200 and the body `Display a specific snippet with ID n...`, `n` in decimal. -/
theorem showSnippet_valid_id (ws : WordSize) (r : Request) (n : Nat) (h1 : 1 ≤ n)
    (hmax : (n : Int) ≤ maxInt ws) (hid : r.URL.Query.Get "id" = Nat.repr n) :
    (showSnippet ws .fresh r).status = 200 ∧
    (showSnippet ws .fresh r).body =
      "Display a specific snippet with ID " ++ Nat.repr n ++ "..." := by
  have hlt : n < 2 ^ (intSize ws - 1) := by
    have : (n : Int) < ((2 ^ (intSize ws - 1) : Nat) : Int) := by
      simp only [maxInt] at hmax
      push_cast
      omega
    exact_mod_cast this
  have ha : Atoi ws (r.URL.Query.Get "id") = ((n : Int), none) := by
    rw [hid, Atoi_repr, if_pos hlt]
  rw [showSnippet_ok ws .fresh r n ha (by omega)]
  simp only [snippetBody, fmtInt_natCast]
  exact ⟨rfl, by simp [ResponseWriter.Write, ResponseWriter.WriteHeader, ResponseWriter.fresh]⟩

/-- Claim C2, amended, at `GET /snippet?id=5` and at the largest 64-bit `int`. -/
theorem showSnippet_valid_id_witness :
    ((1 ≤ 5 ∧ ((5 : Nat) : Int) ≤ maxInt .w64 ∧
        (Request.new "GET" "/snippet" "id=5").URL.Query.Get "id" = Nat.repr 5) ∧
      (showSnippet .w64 .fresh (.new "GET" "/snippet" "id=5")).status = 200 ∧
      (showSnippet .w64 .fresh (.new "GET" "/snippet" "id=5")).body =
        "Display a specific snippet with ID " ++ Nat.repr 5 ++ "...") ∧
    (showSnippet .w64 .fresh (.new "GET" "/snippet" "id=9223372036854775807")).status = 200 :=
  ⟨⟨⟨by decide, by decide, by decide⟩,
      showSnippet_valid_id .w64 (.new "GET" "/snippet" "id=5") 5 (by decide) (by decide)
        (by decide)⟩,
   (showSnippet_valid_id .w64 (.new "GET" "/snippet" "id=9223372036854775807")
      9223372036854775807 (by decide) (by decide) (by decide)).1⟩

theorem Values.Get_of_not_Has (v : Values) (key : String) (h : v.Has key = false) :
    v.Get key = "" := by
  unfold Values.Has at h
  unfold Values.Get
  cases hl : v.entries.lookup key with
  | none => rfl
  | some x => rw [hl] at h; simp at h

/-- Claim C3: when the query has no id, or the id is no decimal numeral, or it denotes
an integer below 1, or `Atoi` reports an error on it or returns less than 1, the
response of `showSnippet` is 404 with the standard not-found body, and the snippet
text is no part of the body. -/
theorem showSnippet_bad_id (ws : WordSize) (r : Request)
    (h : r.URL.Query.Has "id" = false ∨
      isDecimal (r.URL.Query.Get "id").data = false ∨
      decimalInt (r.URL.Query.Get "id").data < 1 ∨
      (Atoi ws (r.URL.Query.Get "id")).2 ≠ none ∨
      (Atoi ws (r.URL.Query.Get "id")).1 < 1) :
    (showSnippet ws .fresh r).status = 404 ∧
    (showSnippet ws .fresh r).body = notFoundBody ∧
    ¬ "Display a specific snippet with ID ".data <:+: (showSnippet ws .fresh r).body.data := by
  have hnd : isDecimal (r.URL.Query.Get "id").data = false →
      (Atoi ws (r.URL.Query.Get "id")).2 ≠ none ∨ (Atoi ws (r.URL.Query.Get "id")).1 < 1 :=
    fun hd => Or.inl (Atoi_not_numeral ws _ hd)
  have hfail : (Atoi ws (r.URL.Query.Get "id")).2 ≠ none ∨
      (Atoi ws (r.URL.Query.Get "id")).1 < 1 := by
    rcases h with h | h | h | h | h
    · apply hnd
      rw [Values.Get_of_not_Has _ _ h]
      rfl
    · exact hnd h
    · cases hdec : isDecimal (r.URL.Query.Get "id").data with
      | false => exact hnd hdec
      | true =>
        by_cases hlo : -(2 : Int) ^ (intSize ws - 1) ≤ decimalInt (r.URL.Query.Get "id").data
        · have hpos : (0 : Int) < (2 : Int) ^ (intSize ws - 1) := by positivity
          rw [Atoi_of_isDecimal ws _ hdec hlo (by omega)]
          exact Or.inr h
        · left
          rw [Atoi_out_of_range ws _ hdec (Or.inl (by omega))]
          simp
    · exact Or.inl h
    · exact Or.inr h
  rw [showSnippet_fail ws .fresh r hfail]
  exact NotFound_fresh r

/-- Claim C3 at `id=-1`, `id=abc`, no id, `id=0` and an empty id. -/
theorem showSnippet_bad_id_witness :
    (decimalInt ((Request.new "GET" "/snippet" "id=-1").URL.Query.Get "id").data < 1 ∧
      (showSnippet .w64 .fresh (.new "GET" "/snippet" "id=-1")).status = 404 ∧
      (showSnippet .w64 .fresh (.new "GET" "/snippet" "id=-1")).body = "404 page not found\n") ∧
    (isDecimal ((Request.new "GET" "/snippet" "id=abc").URL.Query.Get "id").data = false ∧
      (showSnippet .w64 .fresh (.new "GET" "/snippet" "id=abc")).status = 404) ∧
    ((Request.new "GET" "/snippet" "").URL.Query.Has "id" = false ∧
      (showSnippet .w64 .fresh (.new "GET" "/snippet" "")).status = 404) ∧
    (showSnippet .w32 .fresh (.new "GET" "/snippet" "id=0")).status = 404 ∧
    (showSnippet .w32 .fresh (.new "GET" "/snippet" "id=")).status = 404 :=
  ⟨⟨by decide,
      (showSnippet_bad_id .w64 (.new "GET" "/snippet" "id=-1") (Or.inr (Or.inr (Or.inl
        (by decide))))).1,
      (showSnippet_bad_id .w64 (.new "GET" "/snippet" "id=-1") (Or.inr (Or.inr (Or.inl
        (by decide))))).2.1⟩,
   ⟨by decide,
      (showSnippet_bad_id .w64 (.new "GET" "/snippet" "id=abc") (Or.inr (Or.inl
        (by decide)))).1⟩,
   ⟨by decide, (showSnippet_bad_id .w64 (.new "GET" "/snippet" "") (Or.inl (by decide))).1⟩,
   (showSnippet_bad_id .w32 (.new "GET" "/snippet" "id=0") (Or.inr (Or.inr (Or.inl
      (by decide))))).1,
   (showSnippet_bad_id .w32 (.new "GET" "/snippet" "id=") (Or.inr (Or.inl (by decide)))).1⟩

/-- Claim C9: two ids that `Atoi` parses to the same value `n`, at least 1, get
identical responses from `showSnippet`, with status 200 and the body made of the
decimal representation of `n`; and an id of decimal digits only whose value exceeds
the largest `int` is a range error of `Atoi` and gets 404, not 200. -/
theorem showSnippet_parsed_value (ws : WordSize) (w : ResponseWriter) (r1 r2 r3 : Request)
    (n : Int) (h1 : Atoi ws (r1.URL.Query.Get "id") = (n, none))
    (h2 : Atoi ws (r2.URL.Query.Get "id") = (n, none)) (hn : 1 ≤ n)
    (hne : (r3.URL.Query.Get "id").data ≠ [])
    (hdig : ∀ c ∈ (r3.URL.Query.Get "id").data, isDecDigit c = true)
    (hbig : maxInt ws < (decValue (r3.URL.Query.Get "id").data : Int)) :
    (showSnippet ws w r1 = showSnippet ws w r2 ∧
      (showSnippet ws .fresh r1).status = 200 ∧
      (showSnippet ws .fresh r1).body =
        "Display a specific snippet with ID " ++ Nat.repr n.toNat ++ "...") ∧
    ((Atoi ws (r3.URL.Query.Get "id")).2 = some .ErrRange ∧
      (showSnippet ws .fresh r3).status = 404 ∧
      (showSnippet ws .fresh r3).body = notFoundBody) := by
  constructor
  · rw [showSnippet_ok ws w r1 n h1 hn, showSnippet_ok ws w r2 n h2 hn,
      showSnippet_ok ws .fresh r1 n h1 hn]
    refine ⟨rfl, rfl, ?_⟩
    have e : n = ((n.toNat : Nat) : Int) := by omega
    have e2 : fmtInt n = Nat.repr n.toNat := by
      conv_lhs => rw [e]
      exact fmtInt_natCast _
    simp [snippetBody, e2, ResponseWriter.Write, ResponseWriter.WriteHeader,
      ResponseWriter.fresh]
  · have hrange : (Atoi ws (r3.URL.Query.Get "id")).2 = some .ErrRange := by
      cases hs : (r3.URL.Query.Get "id").data with
      | nil => exact absurd hs hne
      | cons c rest =>
        rw [hs] at hdig hbig
        have hc := hdig c (List.mem_cons_self c rest)
        simp only [isDecDigit, Bool.and_eq_true, decide_eq_true_eq] at hc
        have hp : c ≠ '+' := by rintro rfl; revert hc; decide
        have hm : c ≠ '-' := by rintro rfl; revert hc; decide
        have hds : (if c = '+' then rest else if c = '-' then rest else c :: rest)
            = c :: rest := by rw [if_neg hp, if_neg hm]
        rw [Atoi_numeral ws _ c rest hs (by rw [hds]; simp) (by rw [hds]; exact hdig)]
        rw [if_neg hm, hds]
        have hnot : ¬ decValue (c :: rest) < 2 ^ (intSize ws - 1) := by
          intro hlt
          have : ((decValue (c :: rest) : Nat) : Int) < ((2 ^ (intSize ws - 1) : Nat) : Int) := by
            exact_mod_cast hlt
          simp only [maxInt] at hbig
          push_cast at this
          omega
        rw [if_neg hnot]
    have hfail : (Atoi ws (r3.URL.Query.Get "id")).2 ≠ none ∨
        (Atoi ws (r3.URL.Query.Get "id")).1 < 1 := by
      left; rw [hrange]; simp
    rw [showSnippet_fail ws .fresh r3 hfail]
    exact ⟨hrange, (NotFound_fresh r3).1, (NotFound_fresh r3).2.1⟩

/-- Claim C9 at the ids `5`, `+5` (written `%2B5` in a query string) and `005`, and at
the all-digit id 9223372036854775808, one above the largest 64-bit `int`. -/
theorem showSnippet_parsed_value_witness :
    ((Request.new "GET" "/snippet" "id=%2B5").URL.Query.Get "id" = "+5" ∧
      showSnippet .w64 .fresh (.new "GET" "/snippet" "id=5")
        = showSnippet .w64 .fresh (.new "GET" "/snippet" "id=%2B5") ∧
      (showSnippet .w64 .fresh (.new "GET" "/snippet" "id=5")).body
        = "Display a specific snippet with ID 5...") ∧
    showSnippet .w64 .fresh (.new "GET" "/snippet" "id=005")
      = showSnippet .w64 .fresh (.new "GET" "/snippet" "id=5") ∧
    (showSnippet .w64 .fresh (.new "GET" "/snippet" "id=9223372036854775808")).status = 404 :=
  ⟨⟨by decide,
      (showSnippet_parsed_value .w64 .fresh (.new "GET" "/snippet" "id=5")
        (.new "GET" "/snippet" "id=%2B5") (.new "GET" "/snippet" "id=9223372036854775808") 5
        (by decide) (by decide) (by decide) (by decide) (by decide) (by decide)).1.1,
      (showSnippet_parsed_value .w64 .fresh (.new "GET" "/snippet" "id=5")
        (.new "GET" "/snippet" "id=%2B5") (.new "GET" "/snippet" "id=9223372036854775808") 5
        (by decide) (by decide) (by decide) (by decide) (by decide) (by decide)).1.2.2⟩,
   (showSnippet_parsed_value .w64 .fresh (.new "GET" "/snippet" "id=005")
      (.new "GET" "/snippet" "id=5") (.new "GET" "/snippet" "id=9223372036854775808") 5
      (by decide) (by decide) (by decide) (by decide) (by decide) (by decide)).1.1,
   (showSnippet_parsed_value .w64 .fresh (.new "GET" "/snippet" "id=5")
      (.new "GET" "/snippet" "id=5") (.new "GET" "/snippet" "id=9223372036854775808") 5
      (by decide) (by decide) (by decide) (by decide) (by decide) (by decide)).2.2.1⟩

/-! ## The router -/

/-- The canonical form and the escaped form of some paths, and what the two
implementations of the mux of `main` do with some requests. -/
theorem mux_scenarios :
    cleanPath "/foo//bar" = "/foo/bar" ∧ cleanPath "/foo/" = "/foo/" ∧
    cleanPath "/a/../../b/./c/" = "/b/c/" ∧ cleanPath "" = "/" ∧ cleanPath "//" = "/" ∧
    cleanPath "/.." = "/" ∧ cleanPath "foo" = "/foo" ∧ cleanPath "/snippet" = "/snippet" ∧
    (URL.EscapedPath ⟨"/foo//bar", "", ""⟩) = "/foo//bar" ∧
    (URL.EscapedPath ⟨"/a b?c(d)", "", ""⟩) = "/a%20b%3Fc%28d%29" ∧
    (URL.EscapedPath ⟨"/snippet/create", "/snippet%2Fcreate", ""⟩) = "/snippet%2Fcreate" ∧
    pathSegments "/a/b/" = ["a", "b", "/"] ∧ pathSegments "/a//b" = ["a", "", "b"] ∧
    pathSegments "/snippet%2Fcreate" = ["snippet/create"] ∧
    (∀ use121, (mux.Handler use121 (.new "GET" "/" "")).1 = .home) ∧
    (∀ use121, (mux.Handler use121 (.new "GET" "/foo" "")).1 = .home) ∧
    (∀ use121, (mux.Handler use121 (.new "GET" "/snippet" "id=3")).1 = .showSnippet) ∧
    (∀ use121, (mux.Handler use121 (.new "GET" "/snippet/" "")).1 = .home) ∧
    (∀ use121, (mux.Handler use121 (.new "GET" "/snippet/create" "")).1 = .createSnippet) ∧
    (∀ use121, (mux.Handler use121 (.new "CONNECT" "/foo//bar" "")).1 = .home) ∧
    (mux.Handler false (.escaped "GET" "/snippet" "/snip%70et" "")).1 = .showSnippet ∧
    (mux.ServeHTTP false .w64 .fresh (.new "CONNECT" "foo" "")).status = 307 ∧
    (mux.Handler true (.new "CONNECT" "foo" "")).1 = .NotFoundHandler ∧
    (∀ use121, (mux.ServeHTTP use121 .w64 .fresh (.new "GET" "/" "")).status = 200) ∧
    (∀ use121, (mux.ServeHTTP use121 .w64 .fresh (.new "GET" "/foo" "")).status = 404) ∧
    (mux.ServeHTTP false .w64 .fresh (.new "GET" "/foo//bar" "")).status = 307 ∧
    (mux.ServeHTTP true .w64 .fresh (.new "GET" "/foo//bar" "")).status = 301 ∧
    (∀ use121, (mux.ServeHTTP use121 .w64 .fresh (.new "GET" "/foo//bar" "")).sentHeader.Get
      "Location" = "/foo/bar") ∧
    (∀ use121, (mux.ServeHTTP use121 .w64 .fresh (.new "GET" "*" "")).status = 400) := by
  decide

end Snippetbox
